import Mathlib

/-!
Cache reconciliation of the generated service worker

A shallow embedding of build/web/flutter_service_worker.js: the install,
activate, fetch and message handlers over the three named cache partitions,
followed by the properties of the reconciliation protocol.

Modelling conventions.

* A JavaScript string is the list of its characters.
* The module constants RESOURCES and CORE and the value of
  self.location.origin are the fields of a Config, so that statements range
  over every build; the constants of this build are RESOURCES and CORE below.
* An object used as a dictionary (RESOURCES, the parsed stored manifest,
  currentContent) is the association list of its own members. A property read
  first looks for an own member and then for a member inherited from
  Object.prototype (constructor, toString, and so on), which is truthy.
* A cache is the insertion-ordered list of its request/response entries. Two
  requests match when their URLs are equal up to the fragment (the Cache API
  default for GET requests: the query string counts, the fragment does not), and
  a cache never holds two entries whose requests match. Vary headers are not
  modelled.
* The worker script is served from the root of its origin, so a relative
  reference such as a manifest key resolves against origin followed by a slash.
* Asynchronous code is run to completion in program order; interleavings of
  concurrent handlers are not modelled.
* Failure of the storage is injected into activation: a fuse in the state says
  how many awaited steps succeed before one throws, again and again. Every
  awaited step of the activate handler, those of the catch block included, is
  such a step. Exceptions the handler raises by itself (json() on a stored body
  that is not JSON, put of an undefined response) are part of the embedding
  proper.
-/

namespace FlutterServiceWorker

/-! ## Strings -/

/-- A JavaScript string, as the list of its characters. -/
abbrev Str := List Char

/-- JavaScript s.substring(n) for a non-negative n: the characters from index n on. -/
def substring (s : Str) (n : Nat) : Str := s.drop n

/-- JavaScript s.startsWith(t). -/
def startsWith (s t : Str) : Bool := t.isPrefixOf s

/-- Left-to-right search behind indexOf: the index, counted from i, of the first
position at which t occurs, and -1 when there is none. -/
def indexOfFrom (t : Str) : Str → Nat → Int
  | [], i => if t.isPrefixOf [] then (i : Int) else -1
  | c :: cs, i => if t.isPrefixOf (c :: cs) then (i : Int) else indexOfFrom t cs (i + 1)

/-- JavaScript s.indexOf(t). -/
def indexOf (s t : Str) : Int := indexOfFrom t s 0

/-- JavaScript s.split(t)[0] for a non-empty separator t: the part of s before the
first occurrence of t, all of s when t does not occur. -/
def splitHead (t : Str) : Str → Str
  | [] => []
  | c :: cs => if t.isPrefixOf (c :: cs) then [] else c :: splitHead t cs

/-! ## Dictionary objects -/

/-- A resource manifest, as the own members of the object: logical resource key to
content checksum. A member named __proto__ written in an object literal is not
modelled. -/
abbrev Manifest := List (Str × Str)

/-- What a property read on a dictionary object gives: undefined, the string of an
own member, or the member of Object.prototype of the given name. -/
inductive Value where
  | undefined
  | str (s : Str)
  | inherited (name : Str)
deriving DecidableEq

/-- The names of the members every plain object inherits from Object.prototype. -/
def protoKeys : List Str :=
  ["constructor".toList, "toString".toList, "toLocaleString".toList, "valueOf".toList,
   "hasOwnProperty".toList, "isPrototypeOf".toList, "propertyIsEnumerable".toList,
   "__defineGetter__".toList, "__defineSetter__".toList, "__lookupGetter__".toList,
   "__lookupSetter__".toList, "__proto__".toList]

/-- Property read obj[key] on a dictionary object: the own member when there is one,
otherwise the inherited member of that name when there is one, otherwise undefined. -/
def getProp (obj : Manifest) (key : Str) : Value :=
  match List.lookup key obj with
  | some v => .str v
  | none => if key ∈ protoKeys then .inherited key else .undefined

/-- JavaScript truthiness: undefined and the empty string are falsy, an inherited
member (a function, or the prototype object) is truthy. -/
def truthy : Value → Bool
  | .undefined => false
  | .str [] => false
  | .str (_ :: _) => true
  | .inherited _ => true

/-- JavaScript a != b. Two inherited members are equal when they are the same member;
a string is compared with an inherited member through the text the member converts
to, which text is that of the engine. -/
def looseNe (text : Str → Str) : Value → Value → Bool
  | .undefined, .undefined => false
  | .str a, .str b => decide (a ≠ b)
  | .inherited a, .inherited b => decide (a ≠ b)
  | .str a, .inherited b => decide (a ≠ text b)
  | .inherited a, .str b => decide (text a ≠ b)
  | .undefined, .str _ => true
  | .undefined, .inherited _ => true
  | .str _, .undefined => true
  | .inherited _, .undefined => true

/-- The number a string of decimal digits denotes. -/
def indexValue (k : Str) : Nat := k.foldl (fun n c => 10 * n + (c.toNat - 48)) 0

/-- Whether a key is an array index: the canonical decimal form of a number up to
2^32 - 2. -/
def isArrayIndex (k : Str) : Bool :=
  !k.isEmpty && k.all Char.isDigit && (k == ['0'] || k.head? != some '0') &&
    decide (indexValue k ≤ 4294967294)

/-- Object.keys(obj): the array-index keys in ascending numeric order, then the other
keys in the order in which they were written. -/
def objectKeys (obj : Manifest) : List Str :=
  ((obj.map Prod.fst).filter isArrayIndex).insertionSort
      (fun a b => indexValue a ≤ indexValue b) ++
    (obj.map Prod.fst).filter (fun k => !isArrayIndex k)

/-! ## Build-time configuration -/

/-- Build-time constants of one worker together with the origin and the engine it
runs on. -/
structure Config where
  /-- The value of self.location.origin (also the global origin of the worker scope). -/
  origin : Str
  /-- The constant RESOURCES. -/
  RESOURCES : Manifest
  /-- The constant CORE. -/
  CORE : List Str
  /-- The string an inherited member of the given name converts to under the loose
  comparison; for a built-in function this is its source text, which the engine
  chooses. -/
  nativeText : Str → Str

/-- The source text V8 gives a built-in function, and the text of the prototype
object itself. -/
def v8Text (name : Str) : Str :=
  if name = "__proto__".toList then "[object Object]".toList
  else "function ".toList ++ name ++ "() { [native code] }".toList

/-- The data-model conditions on a build: every checksum is a non-empty string,
every manifest key is either the root key "/" or a non-empty relative path, no key
is listed twice, and the core shell is a subset of the manifest keys. -/
def Config.WF (cfg : Config) : Prop :=
  (∀ e ∈ cfg.RESOURCES, e.2 ≠ []) ∧
  (∀ k ∈ objectKeys cfg.RESOURCES, k = ['/'] ∨ (k ≠ [] ∧ k.head? ≠ some '/')) ∧
  (objectKeys cfg.RESOURCES).Nodup ∧
  (∀ c ∈ cfg.CORE, c ∈ objectKeys cfg.RESOURCES)

instance (cfg : Config) : Decidable cfg.WF := by
  unfold Config.WF; exact inferInstance

/-- Further conditions the keys of a generated manifest meet: the origin and the
keys contain no fragment sign, and no key is the name of a member of
Object.prototype. -/
def Config.PlainKeys (cfg : Config) : Prop :=
  '#' ∉ cfg.origin ∧
  ∀ k ∈ objectKeys cfg.RESOURCES, '#' ∉ k ∧ k ∉ protoKeys

instance (cfg : Config) : Decidable cfg.PlainKeys := by
  unfold Config.PlainKeys; exact inferInstance

/-! ## Requests, responses and caches -/

/-- A request: its URL, fragment included, and its method. -/
structure Request where
  url : Str
  method : Str := "GET".toList
deriving DecidableEq

/-- A URL without its fragment: the part before the first fragment sign. -/
def stripFragment (url : Str) : Str := url.takeWhile (fun c => c != '#')

/-- What the Cache API compares of a request: its URL without the fragment. -/
def Request.target (request : Request) : Str := stripFragment request.url

/-- A response body: either the JSON text of an object whose members are all
strings (what JSON.stringify gives for a manifest), or any text that json()
rejects. Bodies that are valid JSON of another shape are not modelled. -/
inductive Body where
  | json (object : Manifest)
  | raw (text : Str)
deriving DecidableEq

/-- A response: whether its status is in the 200 range, and its body. -/
structure Response where
  ok : Bool
  body : Body
deriving DecidableEq

/-- JSON.stringify on a manifest. -/
def JSON_stringify (m : Manifest) : Body := Body.json m

/-- The constructor new Response(body): status 200. -/
def newResponse (body : Body) : Response := { ok := true, body := body }

/-- Resolution of a relative reference against the base URL of the worker, which is
the origin followed by a slash. Covers references that are a path, with or without
a leading slash; dot segments and absolute URLs are not modelled. -/
def resolveUrl (origin ref : Str) : Str :=
  if startsWith ref ['/'] then origin ++ ref else origin ++ '/' :: ref

/-- The constructor new Request(ref), also applied implicitly when a string is
passed where a request is expected. -/
def newRequest (origin ref : Str) : Request := { url := resolveUrl origin ref }

/-- The entries of a cache, in insertion order. -/
abbrev Entries := List (Request × Response)

/-- The response of the first entry whose request matches. -/
def Entries.matchReq (c : Entries) (request : Request) : Option Response :=
  (c.find? (fun e => decide (e.1.target = request.target))).map Prod.snd

/-- The entries whose request does not match. -/
def Entries.delete (c : Entries) (request : Request) : Entries :=
  c.filter (fun e => decide (e.1.target ≠ request.target))

/-- The entries with every matching one removed and the new one added last. -/
def Entries.put (c : Entries) (request : Request) (response : Response) : Entries :=
  Entries.delete c request ++ [(request, response)]

/-- The requests, in insertion order. -/
def Entries.keys (c : Entries) : List Request := c.map Prod.fst

/-- No two entries have matching requests. -/
def Entries.Distinct (c : Entries) : Prop :=
  c.Pairwise (fun a b => a.1.target ≠ b.1.target)

instance (c : Entries) : Decidable (Entries.Distinct c) := by
  unfold Entries.Distinct; exact inferInstance

/-- A cache partition: entries no two of which have matching requests. -/
structure Cache where
  entries : Entries
  distinct : Entries.Distinct entries

instance : DecidableEq Cache := fun a b =>
  if h : a.entries = b.entries then
    isTrue (by cases a; cases b; cases h; rfl)
  else isFalse (fun e => h (congrArg Cache.entries e))

/-- A new, empty cache. -/
def Cache.empty : Cache := { entries := [], distinct := List.Pairwise.nil }

/-- The cache with one entry. -/
def Cache.single (request : Request) (response : Response) : Cache :=
  { entries := [(request, response)], distinct := List.pairwise_singleton _ _ }

/-- Cache.match: the response of the entry whose request matches. -/
def Cache.matchReq (c : Cache) (request : Request) : Option Response :=
  Entries.matchReq c.entries request

/-- Cache.delete: removes the entry whose request matches. -/
def Cache.delete (c : Cache) (request : Request) : Cache :=
  { entries := Entries.delete c.entries request,
    distinct := List.Pairwise.filter _ c.distinct }

/-- Cache.put: replaces the matching entry, if any, by a new last entry. -/
def Cache.put (c : Cache) (request : Request) (response : Response) : Cache :=
  { entries := Entries.put c.entries request response,
    distinct := List.pairwise_append.2
      ⟨List.Pairwise.filter _ c.distinct, List.pairwise_singleton _ _,
        fun a ha b hb => by
          have h1 := of_decide_eq_true (List.mem_filter.1 ha).2
          have h2 : b = (request, response) := List.mem_singleton.1 hb
          rw [h2]
          exact h1⟩ }

/-- Cache.keys: the requests, in insertion order. -/
def Cache.keys (c : Cache) : List Request := Entries.keys c.entries

/-- The three partition names, after the constants that hold them. -/
inductive CacheName where
  | MANIFEST
  | TEMP
  | CACHE_NAME
deriving DecidableEq

/-- The part of CacheStorage the worker uses; none is a partition that does not exist. -/
structure CacheStorage where
  manifest : Option Cache
  temp : Option Cache
  content : Option Cache
deriving DecidableEq

/-- The partition stored under a name. -/
def CacheStorage.get (s : CacheStorage) : CacheName → Option Cache
  | .MANIFEST => s.manifest
  | .TEMP => s.temp
  | .CACHE_NAME => s.content

/-- Replace the partition stored under a name. -/
def CacheStorage.set (s : CacheStorage) (name : CacheName) (c : Option Cache) : CacheStorage :=
  match name with
  | .MANIFEST => { s with manifest := c }
  | .TEMP => { s with temp := c }
  | .CACHE_NAME => { s with content := c }

/-- Storage effect of caches.open(name): creates the partition when it does not exist. -/
def CacheStorage.openCache (s : CacheStorage) (name : CacheName) : CacheStorage :=
  match s.get name with
  | some _ => s
  | none => s.set name (some Cache.empty)

/-- Storage effect of caches.delete(name). -/
def CacheStorage.deleteCache (s : CacheStorage) (name : CacheName) : CacheStorage :=
  s.set name none

/-- The cache read through a handle on the named partition; a handle whose partition
has been deleted reads as empty. -/
def CacheStorage.cache (s : CacheStorage) (name : CacheName) : Cache :=
  (s.get name).getD Cache.empty

/-- The entries read through a handle on the named partition. -/
def CacheStorage.entries (s : CacheStorage) (name : CacheName) : Entries :=
  (s.cache name).entries

/-- Write through a handle on the named partition; a write through a handle whose
partition has been deleted does not reach the storage. -/
def CacheStorage.update (s : CacheStorage) (name : CacheName) (f : Cache → Cache) : CacheStorage :=
  match s.get name with
  | some c => s.set name (some (f c))
  | none => s

/-- The storage in which none of the three partitions exists. -/
def CacheStorage.empty : CacheStorage := { manifest := none, temp := none, content := none }

/-! ## Effects -/

/-- Exceptions and rejections. -/
inductive Err where
  | network (id : Nat)
  | typeError
  | syntaxError
  | invalidState
  | storage
deriving DecidableEq

/-- What a fetch of a URL gives: a response, or a network error. -/
abbrev Network := Str → Except Err Response

/-- The state handlers act on. The fields fuse, deleted and fetched are
instrumentation: fuse lists, for one injected failure after the other, how many
awaited steps of the activate handler succeed before the next one throws (the empty
list: no step fails); deleted records the requests passed to delete on the content
partition, and fetched the URLs requested from the network. -/
structure World where
  caches : CacheStorage
  fuse : List Nat
  claimed : Bool
  skippedWaiting : Bool
  console : List Err
  deleted : List Request
  fetched : List Str
deriving DecidableEq

/-- A handler step: runs on a state and either returns or throws, in both cases
leaving a state behind. -/
def Act (α : Type) : Type := World → Except Err α × World

/-- Sequencing: a thrown exception skips the rest. -/
def Act.bind {α β : Type} (a : Act α) (f : α → Act β) : Act β := fun w =>
  match a w with
  | (.ok x, w1) => f x w1
  | (.error e, w1) => (.error e, w1)

instance : Monad Act where
  pure a := fun w => (.ok a, w)
  bind := Act.bind

/-- The statement throw e. -/
def throwErr {α : Type} (e : Err) : Act α := fun w => (.error e, w)

/-- The statement try body catch (err) handler. -/
def tryCatch {α : Type} (body : Act α) (handler : Err → Act α) : Act α := fun w =>
  match body w with
  | (.ok x, w1) => (.ok x, w1)
  | (.error e, w1) => handler e w1

/-- An awaited step of the activate handler: it throws when the current count of the
fuse has run out, and otherwise uses up one unit of it. -/
def await {α : Type} (a : Act α) : Act α := fun w =>
  match w.fuse with
  | [] => a w
  | 0 :: rest => (.error .storage, { w with fuse := rest })
  | (n + 1) :: rest => a { w with fuse := n :: rest }

/-- The call caches.open(name). -/
def cachesOpen (name : CacheName) : Act Unit := fun w =>
  (.ok (), { w with caches := w.caches.openCache name })

/-- The call caches.delete(name). -/
def cachesDelete (name : CacheName) : Act Unit := fun w =>
  (.ok (), { w with caches := w.caches.deleteCache name })

/-- The call cache.match(request) on the handle of a partition. -/
def cacheMatch (name : CacheName) (request : Request) : Act (Option Response) := fun w =>
  (.ok (Cache.matchReq (w.caches.cache name) request), w)

/-- The call cache.keys() on the handle of a partition. -/
def cacheKeys (name : CacheName) : Act (List Request) := fun w =>
  (.ok (Cache.keys (w.caches.cache name)), w)

/-- The call cache.put(request, response); response may be undefined, which put
rejects with a TypeError. -/
def cachePut (name : CacheName) (request : Request) (response : Option Response) : Act Unit :=
  fun w =>
    match response with
    | none => (.error .typeError, w)
    | some r => (.ok (), { w with caches := w.caches.update name (fun c => Cache.put c request r) })

/-- The call contentCache.delete(request). -/
def cacheDelete (name : CacheName) (request : Request) : Act Unit := fun w =>
  (.ok (), { w with caches := w.caches.update name (fun c => Cache.delete c request),
                    deleted := w.deleted ++ [request] })

/-- The call response.json(). -/
def responseJson (response : Response) : Act Manifest := fun w =>
  match response.body with
  | .json object => (.ok object, w)
  | .raw _ => (.error .syntaxError, w)

/-- The call self.clients.claim(). -/
def clientsClaim : Act Unit := fun w => (.ok (), { w with claimed := true })

/-- The call self.skipWaiting(). -/
def skipWaiting : Act Unit := fun w => (.ok (), { w with skippedWaiting := true })

/-- The call console.error with the caught exception. -/
def consoleError (err : Err) : Act Unit := fun w => (.ok (), { w with console := w.console ++ [err] })

/-- The call fetch(request). -/
def fetch (net : Network) (request : Request) : Act Response := fun w =>
  (net request.url, { w with fetched := w.fetched ++ [request.url] })

/-- The responses addAll collects: a request whose fetch fails, or whose response
has a status that is not ok, makes addAll reject with a TypeError of its own. -/
def fetchAll (net : Network) : List Request → Except Err (List (Request × Response))
  | [] => .ok []
  | request :: rest =>
    match net request.url with
    | .error _ => .error .typeError
    | .ok response =>
      if response.ok then
        match fetchAll net rest with
        | .error e => .error e
        | .ok es => .ok ((request, response) :: es)
      else .error .typeError

/-- The call cache.addAll(requests): every request is fetched; the batch is stored
only when every fetch gave an ok response, and two matching requests in one batch
are rejected with an InvalidStateError. -/
def cacheAddAll (name : CacheName) (net : Network) (requests : List Request) : Act Unit := fun w =>
  let w1 := { w with fetched := w.fetched ++ requests.map Request.url }
  match fetchAll net requests with
  | .error e => (.error e, w1)
  | .ok es =>
    if (requests.map Request.target).Nodup then
      let stored := w1.caches.update name (fun c => es.foldl (fun acc e => Cache.put acc e.1 e.2) c)
      (.ok (), { w1 with caches := stored })
    else (.error .invalidState, w1)

/-! ## Logical keys -/

/-- The key computed from a cached request in the activate handler and in
downloadOffline: the URL without the origin and the slash after it, the empty
string read as "/". -/
def cacheKey (origin url : Str) : Str :=
  let key := substring url (origin.length + 1)
  if key = [] then ['/'] else key

/-- The key computed by the fetch handler from the URL of the request. -/
def fetchKey (origin url : Str) : Str :=
  let key := substring url (origin.length + 1)
  let key := if indexOf key "?v=".toList ≠ -1 then splitHead "?v=".toList key else key
  if url = origin ∨ startsWith url (origin ++ "/#".toList) = true ∨ key = [] then ['/'] else key

/-! ## Install -/

/-- The install handler: skipWaiting, then the staging partition is opened and the
core shell is added to it with cache mode reload. -/
def install (cfg : Config) (net : Network) : Act Unit := do
  skipWaiting
  cachesOpen .TEMP
  cacheAddAll .TEMP net (cfg.CORE.map (newRequest cfg.origin))

/-! ## Activate -/

/-- The request the string 'manifest' stands for in the manifest store. -/
def manifestRequest (origin : Str) : Request := newRequest origin "manifest".toList

/-- The loop over tempCache.keys(): each staged entry is read back and put into the
content partition. -/
def populate : List Request → Act Unit
  | [] => pure ()
  | request :: rest => do
    let response ← await (cacheMatch .TEMP request)
    await (cachePut .CACHE_NAME request response)
    populate rest

/-- The deletion test of the upgrade loop:
!RESOURCES[key] || RESOURCES[key] != oldManifest[key]. -/
def stale (cfg : Config) (oldManifest : Manifest) (key : Str) : Bool :=
  !truthy (getProp cfg.RESOURCES key) ||
    looseNe cfg.nativeText (getProp cfg.RESOURCES key) (getProp oldManifest key)

/-- The loop over contentCache.keys() of the upgrade path. -/
def invalidate (cfg : Config) (oldManifest : Manifest) : List Request → Act Unit
  | [] => pure ()
  | request :: rest => do
    let key := cacheKey cfg.origin request.url
    if stale cfg oldManifest key then
      await (cacheDelete .CACHE_NAME request)
    invalidate cfg oldManifest rest

/-- The steps shared by both paths after the content partition is settled: staging
is copied in and deleted, the new manifest is saved, the clients are claimed. -/
def promote (cfg : Config) : Act Unit := do
  let staged ← await (cacheKeys .TEMP)
  populate staged
  await (cachesDelete .TEMP)
  await (cachePut .MANIFEST (manifestRequest cfg.origin)
    (some (newResponse (JSON_stringify cfg.RESOURCES))))
  clientsClaim

/-- The guarded block of the activate handler. -/
def activateBody (cfg : Config) : Act Unit := do
  await (cachesOpen .CACHE_NAME)
  await (cachesOpen .TEMP)
  await (cachesOpen .MANIFEST)
  let manifest ← await (cacheMatch .MANIFEST (manifestRequest cfg.origin))
  match manifest with
  | none =>
    await (cachesDelete .CACHE_NAME)
    await (cachesOpen .CACHE_NAME)
    promote cfg
  | some manifest =>
    let oldManifest ← await (responseJson manifest)
    let cached ← await (cacheKeys .CACHE_NAME)
    invalidate cfg oldManifest cached
    promote cfg

/-- The catch block of the activate handler: the exception is logged and the three
partitions are deleted, each deletion awaited and not guarded. -/
def activateCatch (err : Err) : Act Unit := do
  consoleError err
  await (cachesDelete .CACHE_NAME)
  await (cachesDelete .TEMP)
  await (cachesDelete .MANIFEST)

/-- The activate handler: the promise handed to event.waitUntil. -/
def activate (cfg : Config) : Act Unit := tryCatch (activateBody cfg) activateCatch

/-! ## Fetch -/

/-- The function onlineFirst: the promise handed to event.respondWith. -/
def onlineFirst (net : Network) (request : Request) : Act Response :=
  tryCatch
    (do
      let response ← fetch net request
      cachesOpen .CACHE_NAME
      cachePut .CACHE_NAME request (some response)
      pure response)
    (fun error => do
      cachesOpen .CACHE_NAME
      let response ← cacheMatch .CACHE_NAME request
      match response with
      | some response => pure response
      | none => throwErr error)

/-- The cache-first promise handed to event.respondWith for the other resources. -/
def cacheFirst (net : Network) (request : Request) : Act Response := do
  cachesOpen .CACHE_NAME
  let response ← cacheMatch .CACHE_NAME request
  match response with
  | some response => pure response
  | none =>
    let response ← fetch net request
    if response.ok then
      cachePut .CACHE_NAME request (some response)
    pure response

/-- The strategy the fetch handler settles on. -/
inductive Strategy where
  | onlineFirst
  | cacheFirst
deriving DecidableEq

/-- The routing part of the fetch handler: none when the handler returns without
calling respondWith. -/
def route (cfg : Config) (request : Request) : Option Strategy :=
  if request.method ≠ "GET".toList then none
  else
    let key := fetchKey cfg.origin request.url
    if !truthy (getProp cfg.RESOURCES key) then none
    else if key = ['/'] then some .onlineFirst
    else some .cacheFirst

/-- The fetch handler: none when the event is left to the browser, otherwise the
outcome of the promise handed to respondWith. -/
def onFetch (cfg : Config) (net : Network) (request : Request) (w : World) :
    Option (Except Err Response) × World :=
  match route cfg request with
  | none => (none, w)
  | some .onlineFirst => let r := onlineFirst net request w; (some r.1, r.2)
  | some .cacheFirst => let r := cacheFirst net request w; (some r.1, r.2)

/-! ## Messages -/

/-- The read currentContent[resourceKey] of downloadOffline, as a truth value:
currentContent starts as an empty object literal and gets the member true under the
logical key of every request of the content partition, so the read is truthy for
such a key and for the name of every inherited member. -/
def currentContentHas (cfg : Config) (keys : List Request) (resourceKey : Str) : Bool :=
  (keys.map (fun request => cacheKey cfg.origin request.url)).contains resourceKey ||
    protoKeys.contains resourceKey

/-- The resources downloadOffline collects: the keys of RESOURCES for which the read
of currentContent is falsy. -/
def missingResources (cfg : Config) (keys : List Request) : List Str :=
  (objectKeys cfg.RESOURCES).filter (fun resourceKey => !currentContentHas cfg keys resourceKey)

/-- The function downloadOffline. The identifier origin it reads is the global of
the worker scope, whose value is that of self.location.origin. -/
def downloadOffline (cfg : Config) (net : Network) : Act Unit := do
  cachesOpen .CACHE_NAME
  let keys ← cacheKeys .CACHE_NAME
  cacheAddAll .CACHE_NAME net ((missingResources cfg keys).map (newRequest cfg.origin))

/-- The message handler; data is the payload of the event. -/
def onMessage (cfg : Config) (net : Network) (data : Str) : Act Unit :=
  if data = "skipWaiting".toList then skipWaiting
  else if data = "downloadOffline".toList then downloadOffline cfg net
  else pure ()



/-! ## The constants of this build -/

/-- The constant RESOURCES of this build: resource key to MD5 checksum. -/
def RESOURCES : Manifest :=
  [("flutter_bootstrap.js".toList, "b96092e2d3e0bac67df1aa8bceea8ee1".toList),
   ("version.json".toList, "11e1a177d57c5da2bc6e3a6acc3010f4".toList),
   ("index.html".toList, "982859e7b42c5a9264df3694f633f887".toList),
   ("/".toList, "982859e7b42c5a9264df3694f633f887".toList),
   ("main.dart.js".toList, "78fb0931993f0c67d37b82ed288734ac".toList),
   ("flutter.js".toList, "76f08d47ff9f5715220992f993002504".toList),
   ("favicon.png".toList, "5dcef449791fa27946b3d35ad8803796".toList),
   ("icons/Icon-192.png".toList, "ac9a721a12bbc803b44f645561ecb1e1".toList),
   ("icons/Icon-maskable-192.png".toList, "c457ef57daa1d16f64b27b786ec2ea3c".toList),
   ("icons/Icon-maskable-512.png".toList, "301a7604d45b3e739efc881eb04896ea".toList),
   ("icons/Icon-512.png".toList, "96e752610906ba2a93c65f8abe1645f1".toList),
   ("manifest.json".toList, "3fc29f9294b755bca0378065b89e216e".toList),
   ("assets/AssetManifest.json".toList, "d650fb31d1d877218cf1c3200536fedb".toList),
   ("assets/NOTICES".toList, "a7dfba35fbff7cb6d665236c4fe6cf64".toList),
   ("assets/FontManifest.json".toList, "dc3d03800ccca4601324923c0b1d6d57".toList),
   ("assets/AssetManifest.bin.json".toList, "cf742a5a3e9b245f471b619681facd01".toList),
   ("assets/packages/cupertino_icons/assets/CupertinoIcons.ttf".toList, "33b7d9392238c04c131b6ce224e13711".toList),
   ("assets/shaders/ink_sparkle.frag".toList, "ecc85a2e95f5e9f53123dcaf8cb9b6ce".toList),
   ("assets/AssetManifest.bin".toList, "08c7bd529e69cb2210b4ef00b608392f".toList),
   ("assets/fonts/MaterialIcons-Regular.otf".toList, "c9a2e5183c3ee66b275f3ec6a2d36ce4".toList),
   ("assets/assets/images/T4LLogo.png".toList, "b98988b829d9359533f701dd4bafbf86".toList),
   ("assets/assets/logos/houston_texans.png".toList, "774f66c3e1d37465037c48e678204a87".toList),
   ("assets/assets/logos/carolina_panthers.png".toList, "8427c63dc9a70eb45766517dd88ec79a".toList),
   ("assets/assets/logos/new_york_giants.png".toList, "d476c2eb38aacd4f11a38dc35ab9302d".toList),
   ("assets/assets/logos/cleveland_browns.png".toList, "0727aea99e6bdc12378b27d587c2417d".toList),
   ("assets/assets/logos/cincinnati_bengals.png".toList, "9d8f46cdb19ef72131af8004999e10c8".toList),
   ("assets/assets/logos/new_orleans_saints.png".toList, "0e18ee7b3ec8e512404d4bf9f6a5834a".toList),
   ("assets/assets/logos/tennessee_titans.png".toList, "6b2bb9e595ee6e635a3dc8944beaaaa4".toList),
   ("assets/assets/logos/tampa_bay_buccaneers.png".toList, "a9cff7e46d799412fb4893f72bcc68fb".toList),
   ("assets/assets/logos/buffalo_bills.png".toList, "729797e1cde0f288e17dc589b0b549ed".toList),
   ("assets/assets/logos/nfc.png".toList, "a31b52f052e39b01931379efe109294e".toList),
   ("assets/assets/logos/pittsbourg_steelers.png".toList, "006878b5a324f697e4fe921eff37b4c8".toList),
   ("assets/assets/logos/jacksonville_jaguars.png".toList, "a99447992bcdb881430a32bf5f51d49d".toList),
   ("assets/assets/logos/los_angeles_rams.png".toList, "9a870772b1f592d9aeab5daf480f477f".toList),
   ("assets/assets/logos/los_angeles_chargers.png".toList, "b90a2a24a0a0cd21b00a5b96276eb2b2".toList),
   ("assets/assets/logos/dallas_cowboys.png".toList, "e3d338cf4a9279cf179e4dc28ed781f9".toList),
   ("assets/assets/logos/indianapolis_colts.png".toList, "83aaa03ed09190461f49f32f5ed10876".toList),
   ("assets/assets/logos/denver_broncos.png".toList, "d7e0b983f83c34ee4c03e3a1b2796624".toList),
   ("assets/assets/logos/philadelphia_eagles.png".toList, "d5cf55276f2fd1495ed59945e6d08f37".toList),
   ("assets/assets/logos/chicago_bears.png".toList, "a630628ad6a4e4f8b72b9678934437cd".toList),
   ("assets/assets/logos/minnesota_vikings.png".toList, "68e182f4a05f9e3e888a1ea3e146993b".toList),
   ("assets/assets/logos/kansas_city_chiefs.png".toList, "8b6d8ac87d0f1245a8b739b5d2b0f435".toList),
   ("assets/assets/logos/new_york_jets.png".toList, "e4b45e8414d76d1af0b074c29d274930".toList),
   ("assets/assets/logos/nfl.png".toList, "87d37e8cee7d4a8ad3c1e78608652760".toList),
   ("assets/assets/logos/san_francisco_49ers.png".toList, "8b9c568e3304668763d5d27837585d8a".toList),
   ("assets/assets/logos/arizona_cardinals.png".toList, "f2f2f3560594a8ecb517d28ae0a4471a".toList),
   ("assets/assets/logos/Green_bay_packers.png".toList, "05c8e911391d1df7f61e42f541276835".toList),
   ("assets/assets/logos/seattle_seahawks.png".toList, "9fc5d08f80b0bd3540f3c2fcbbebf6f8".toList),
   ("assets/assets/logos/detroit_lions.png".toList, "58c5bf5721e523482d830173c57be66a".toList),
   ("assets/assets/logos/new_england_patriots.png".toList, "3510ed1249784e05b6d8b79bdb627652".toList),
   ("assets/assets/logos/atlanta_falcons.png".toList, "2bf892d302e990f990d602a97ebe6edf".toList),
   ("assets/assets/logos/afc.png".toList, "b62358e224fac2a787a5f54127adb533".toList),
   ("assets/assets/logos/las_vegas_raiders.png".toList, "9e475d64b76a65df50498023e4d18950".toList),
   ("assets/assets/logos/washington_commanders.png".toList, "27a5a40b711d0581e878e325f1183353".toList),
   ("assets/assets/logos/miami_dolphins.png".toList, "85ac5a972ca18e3f1a1f3c85cd656358".toList),
   ("assets/assets/logos/baltimore_ravens.png".toList, "9e578253010281bb540b27d3a766d208".toList),
   ("canvaskit/skwasm_st.js".toList, "d1326ceef381ad382ab492ba5d96f04d".toList),
   ("canvaskit/skwasm.js".toList, "f2ad9363618c5f62e813740099a80e63".toList),
   ("canvaskit/skwasm.js.symbols".toList, "80806576fa1056b43dd6d0b445b4b6f7".toList),
   ("canvaskit/canvaskit.js.symbols".toList, "68eb703b9a609baef8ee0e413b442f33".toList),
   ("canvaskit/skwasm.wasm".toList, "f0dfd99007f989368db17c9abeed5a49".toList),
   ("canvaskit/chromium/canvaskit.js.symbols".toList, "5a23598a2a8efd18ec3b60de5d28af8f".toList),
   ("canvaskit/chromium/canvaskit.js".toList, "34beda9f39eb7d992d46125ca868dc61".toList),
   ("canvaskit/chromium/canvaskit.wasm".toList, "64a386c87532ae52ae041d18a32a3635".toList),
   ("canvaskit/skwasm_st.js.symbols".toList, "c7e7aac7cd8b612defd62b43e3050bdd".toList),
   ("canvaskit/canvaskit.js".toList, "86e461cf471c1640fd2b461ece4589df".toList),
   ("canvaskit/canvaskit.wasm".toList, "efeeba7dcc952dae57870d4df3111fad".toList),
   ("canvaskit/skwasm_st.wasm".toList, "56c3973560dfcbf28ce47cebe40f3206".toList)]

/-- The constant CORE of this build: the application shell files. -/
def CORE : List Str :=
  ["main.dart.js".toList,
   "index.html".toList,
   "flutter_bootstrap.js".toList,
   "assets/AssetManifest.bin.json".toList,
   "assets/FontManifest.json".toList]

/-- The configuration of this build on a given origin, on V8. -/
def thisBuild (origin : Str) : Config :=
  { origin := origin, RESOURCES := RESOURCES, CORE := CORE, nativeText := v8Text }

/-! ## Notions used in the statements -/

/-- The state with the fault instrumentation switched off. -/
def disarm (w : World) : World := { w with fuse := [] }

/-- A step whose successful runs do not depend on the fuse. -/
def FuseBlind {α : Type} (a : Act α) : Prop :=
  ∀ w x w1, a w = (.ok x, w1) → a (disarm w) = (.ok x, disarm w1)

/-- A step that keeps a property of the storage, whether it returns or throws. -/
def Keeps {α : Type} (P : CacheStorage → Prop) (a : Act α) : Prop :=
  ∀ w, P w.caches → P (a w).2.caches

/-- What the upgrade loop leaves of a cache when it visits the requests ks. -/
def sweep (cfg : Config) (oldManifest : Manifest) : List Request → Cache → Cache
  | [], c => c
  | request :: rest, c =>
    sweep cfg oldManifest rest
      (if stale cfg oldManifest (cacheKey cfg.origin request.url) then Cache.delete c request else c)

/-- What the copy loop makes of a cache when it visits the requests ks of the
staging cache. -/
def copyStaged (staging : Cache) : List Request → Cache → Cache
  | [], c => c
  | request :: rest, c =>
    match Cache.matchReq staging request with
    | some response => copyStaged staging rest (Cache.put c request response)
    | none => c

/-- Every entry of the manifest store is keyed 'manifest': the worker writes no
other key to that partition. -/
def ManifestStoreOwned (origin : Str) (s : CacheStorage) : Prop :=
  ∀ e ∈ s.entries .MANIFEST, e.1.url = (manifestRequest origin).url

/-- Staging holds only core-shell resources, as fetched by install. -/
def StagedCore (cfg : Config) (s : CacheStorage) : Prop :=
  ∀ r ∈ Entries.keys (s.entries .TEMP), ∃ c ∈ cfg.CORE, r.url = resolveUrl cfg.origin c

/-- The requests passed to delete on the content partition while a runs from w. -/
def deletedDuring {α : Type} (a : Act α) (w : World) : List Request :=
  (a w).2.deleted.drop w.deleted.length

/-- The test !manifest of the activate handler succeeds when activation starts in w:
the manifest store has no entry under 'manifest'. -/
def FirstInstallPath (cfg : Config) (w : World) : Prop :=
  Entries.matchReq (w.caches.entries .MANIFEST) (manifestRequest cfg.origin) = none

/-- None of the three awaited deletions of the catch block is a step at which the
fuse runs out. -/
def CleanupUnfaulted (w : World) : Prop :=
  match w.fuse with
  | [] => True
  | n :: _ => 3 ≤ n

/-- The state of a browser that has never run the worker. -/
def freshWorld : World :=
  { caches := CacheStorage.empty, fuse := [], claimed := false, skippedWaiting := false,
    console := [], deleted := [], fetched := [] }

/-- The build of the scenarios of the specification: manifest a to h1 and b to h2,
core shell a. -/
def scenarioBuild (origin : Str) : Config :=
  { origin := origin,
    RESOURCES := [("a".toList, "h1".toList), ("b".toList, "h2".toList)],
    CORE := ["a".toList],
    nativeText := v8Text }

/-- The storage states the worker brings about on an origin, starting from a browser
that never ran it: any build on that origin may be installed and activated, against
any network and with any injected faults, and may handle any fetch event and any
message. -/
inductive Reachable (origin : Str) : World → Prop
  | fresh (w : World) : w.caches = CacheStorage.empty → Reachable origin w
  | install (cfg : Config) (net : Network) (w : World) :
      cfg.origin = origin → Reachable origin w → Reachable origin (install cfg net w).2
  | activate (cfg : Config) (w : World) :
      cfg.origin = origin → Reachable origin w → Reachable origin (activate cfg w).2
  | fetch (cfg : Config) (net : Network) (request : Request) (w : World) :
      cfg.origin = origin → Reachable origin w →
      Reachable origin (onFetch cfg net request w).2
  | message (cfg : Config) (net : Network) (data : Str) (w : World) :
      cfg.origin = origin → Reachable origin w →
      Reachable origin (onMessage cfg net data w).2
  | arm (w : World) (fuse : List Nat) :
      Reachable origin w → Reachable origin { w with fuse := fuse }

/-! ## Concrete builds and states -/

/-- A response with status 200 and the given text as body. -/
def textResponse (text : String) : Response := { ok := true, body := .raw text.toList }

/-- A build whose manifest lists the resource app, on the origin https://x. -/
def versionedBuild : Config :=
  { origin := "https://x".toList, RESOURCES := [("app".toList, "h".toList)], CORE := [],
    nativeText := v8Text }

/-- The copy of app held by the content partition. -/
def cachedApp : Response := textResponse "cached"

/-- The copy of app the network serves. -/
def liveApp : Response := textResponse "live"

/-- A state whose content partition holds app under its plain URL. -/
def versionedWorld : World :=
  { freshWorld with
    caches := { manifest := none, temp := none,
                content := some (Cache.single { url := "https://x/app".toList } cachedApp) } }

/-- A network that serves the live copy for every URL. -/
def liveNet : Network := fun _ => .ok liveApp

/-- A network that is down. -/
def offlineNet : Network := fun _ => .error (.network 7)

/-- The new build of the upgrade scenario: the checksum of b has changed, d is gone,
the core shell is a. -/
def upgradeBuild : Config :=
  { origin := "https://x".toList,
    RESOURCES := [("a".toList, "h1".toList), ("b".toList, "h2new".toList),
                  ("c".toList, "h3".toList)],
    CORE := ["a".toList],
    nativeText := v8Text }

/-- The manifest the previous worker saved. -/
def savedManifest : Manifest :=
  [("a".toList, "h1".toList), ("b".toList, "h2".toList), ("c".toList, "h3".toList),
   ("d".toList, "h4".toList)]

/-- The content partition before the upgrade: a, b, c and d, and the answer the
server once gave for the path constructor, which no manifest lists. -/
def upgradeContent : Cache :=
  { entries := [({ url := "https://x/a".toList }, textResponse "a1"),
                ({ url := "https://x/b".toList }, textResponse "b1"),
                ({ url := "https://x/c".toList }, textResponse "c1"),
                ({ url := "https://x/d".toList }, textResponse "d1"),
                ({ url := "https://x/constructor".toList }, textResponse "page")],
    distinct := by decide }

/-- The state before the upgrade: the previous manifest is saved, the content
partition is as above, and install has staged a fresh copy of a. -/
def upgradeWorld : World :=
  { freshWorld with
    caches :=
      { manifest := some (Cache.single (manifestRequest "https://x".toList)
                           (newResponse (JSON_stringify savedManifest))),
        temp := some (Cache.single { url := "https://x/a".toList } (textResponse "a2")),
        content := some upgradeContent } }

/-- The upgrade state with one fault armed: the fifth awaited step of activation
throws. -/
def faultyWorld : World := { upgradeWorld with fuse := [4] }

/-- The upgrade state with two faults armed: the fifth awaited step of activation
throws, and so does the step after it, the first deletion of the catch block. -/
def doubleFaultWorld : World := { upgradeWorld with fuse := [4, 0] }

/-- A state whose content partition holds the root document, as stored by an
earlier online-first request for the root. -/
def rootCachedWorld : World :=
  { freshWorld with
    caches := { manifest := none, temp := none,
                content := some (Cache.single { url := "https://x/".toList }
                                  (textResponse "root")) } }

/-- A state of the shipped worker on origin https://x whose content partition holds
only main.dart.js. -/
def partialWorld : World :=
  { freshWorld with
    caches := { manifest := none, temp := none,
                content := some (Cache.single { url := "https://x/main.dart.js".toList }
                                  cachedApp) } }

/-- A state of the shipped worker before an upgrade, on origin https://x: the
manifest of the previous build is saved, nothing is staged, and the content
partition holds a script that no manifest lists any more and the answer the server
once gave for the path constructor, which no manifest lists either. -/
def shippedUpgradeWorld : World :=
  { freshWorld with
    caches :=
      { manifest := some (Cache.single (manifestRequest "https://x".toList)
                           (newResponse (JSON_stringify RESOURCES))),
        temp := some Cache.empty,
        content := some
          { entries := [({ url := "https://x/old.js".toList }, textResponse "old"),
                        ({ url := "https://x/constructor".toList }, textResponse "page")],
            distinct := by decide } } }

/-! ## Running steps -/

theorem pure_run {α : Type} (x : α) (w : World) : (pure x : Act α) w = (.ok x, w) := rfl

theorem bind_run {α β : Type} (a : Act α) (f : α → Act β) (w : World) :
    (a >>= f) w = match a w with
      | (.ok x, w1) => f x w1
      | (.error e, w1) => (.error e, w1) := rfl

theorem bind_run_ok {α β : Type} {a : Act α} {f : α → Act β} {w w1 : World} {x : α}
    (h : a w = (.ok x, w1)) : (a >>= f) w = f x w1 := by
  rw [bind_run, h]

theorem bind_run_error {α β : Type} {a : Act α} {f : α → Act β} {w w1 : World} {e : Err}
    (h : a w = (.error e, w1)) : (a >>= f) w = (.error e, w1) := by
  rw [bind_run, h]

theorem bind_ok_inv {α β : Type} {a : Act α} {f : α → Act β} {w w2 : World} {y : β}
    (h : (a >>= f) w = (.ok y, w2)) : ∃ x w1, a w = (.ok x, w1) ∧ f x w1 = (.ok y, w2) := by
  rw [bind_run] at h
  rcases hr : a w with ⟨r, w1⟩
  rw [hr] at h
  cases r with
  | ok x => exact ⟨x, w1, rfl, h⟩
  | error e => simp at h

theorem await_run_none {α : Type} (a : Act α) {w : World} (h : w.fuse = []) :
    await a w = a w := by
  simp [await, h]

theorem disarm_fuse (w : World) : (disarm w).fuse = [] := rfl

theorem disarm_caches (w : World) : (disarm w).caches = w.caches := rfl

theorem disarm_deleted (w : World) : (disarm w).deleted = w.deleted := rfl

/-! ## Successful runs do not depend on the fuse -/

theorem fuseBlind_pure {α : Type} (x : α) : FuseBlind (pure x : Act α) := by
  intro w y w1 h
  rw [pure_run] at h
  rw [pure_run]
  cases h
  rfl

theorem fuseBlind_bind {α β : Type} {a : Act α} {f : α → Act β}
    (ha : FuseBlind a) (hf : ∀ x, FuseBlind (f x)) : FuseBlind (a >>= f) := by
  intro w y w2 h
  obtain ⟨x, w1, h1, h2⟩ := bind_ok_inv h
  rw [bind_run_ok (ha w x w1 h1)]
  exact hf x w1 y w2 h2

theorem fuseBlind_await {α : Type} {a : Act α} (ha : FuseBlind a) : FuseBlind (await a) := by
  intro w x w1 h
  rw [await_run_none a (disarm_fuse w)]
  unfold await at h
  rcases hf : w.fuse with _ | ⟨n, rest⟩
  · rw [hf] at h
    exact ha w x w1 h
  · rw [hf] at h
    cases n with
    | zero => simp at h
    | succ n =>
      have := ha _ x w1 h
      simpa [disarm] using this

theorem fuseBlind_cachesOpen (name : CacheName) : FuseBlind (cachesOpen name) := by
  intro w x w1 h
  simp only [cachesOpen, Prod.mk.injEq] at h
  obtain ⟨_, rfl⟩ := h
  rfl

theorem fuseBlind_cachesDelete (name : CacheName) : FuseBlind (cachesDelete name) := by
  intro w x w1 h
  simp only [cachesDelete, Prod.mk.injEq] at h
  obtain ⟨_, rfl⟩ := h
  rfl

theorem fuseBlind_cacheMatch (name : CacheName) (request : Request) :
    FuseBlind (cacheMatch name request) := by
  intro w x w1 h
  simp only [cacheMatch, Prod.mk.injEq] at h
  obtain ⟨h1, rfl⟩ := h
  cases h1
  rfl

theorem fuseBlind_cacheKeys (name : CacheName) : FuseBlind (cacheKeys name) := by
  intro w x w1 h
  simp only [cacheKeys, Prod.mk.injEq] at h
  obtain ⟨h1, rfl⟩ := h
  cases h1
  rfl

theorem fuseBlind_cachePut (name : CacheName) (request : Request) (response : Option Response) :
    FuseBlind (cachePut name request response) := by
  intro w x w1 h
  cases response with
  | none => simp [cachePut] at h
  | some r =>
    simp only [cachePut, Prod.mk.injEq] at h
    obtain ⟨_, rfl⟩ := h
    rfl

theorem fuseBlind_cacheDelete (name : CacheName) (request : Request) :
    FuseBlind (cacheDelete name request) := by
  intro w x w1 h
  simp only [cacheDelete, Prod.mk.injEq] at h
  obtain ⟨_, rfl⟩ := h
  rfl

theorem fuseBlind_responseJson (response : Response) : FuseBlind (responseJson response) := by
  intro w x w1 h
  unfold responseJson at h ⊢
  cases hb : response.body with
  | json object =>
    rw [hb] at h
    simp only [Prod.mk.injEq] at h
    obtain ⟨h1, rfl⟩ := h
    cases h1
    rfl
  | raw text =>
    rw [hb] at h
    simp at h

theorem fuseBlind_clientsClaim : FuseBlind clientsClaim := by
  intro w x w1 h
  simp only [clientsClaim, Prod.mk.injEq] at h
  obtain ⟨_, rfl⟩ := h
  rfl

theorem fuseBlind_populate (ks : List Request) : FuseBlind (populate ks) := by
  induction ks with
  | nil => exact fuseBlind_pure ()
  | cons k rest ih =>
    unfold populate
    exact fuseBlind_bind (fuseBlind_await (fuseBlind_cacheMatch _ _)) fun response =>
      fuseBlind_bind (fuseBlind_await (fuseBlind_cachePut _ _ _)) fun _ => ih

theorem fuseBlind_invalidate (cfg : Config) (oldManifest : Manifest) (ks : List Request) :
    FuseBlind (invalidate cfg oldManifest ks) := by
  induction ks with
  | nil => exact fuseBlind_pure ()
  | cons k rest ih =>
    unfold invalidate
    by_cases hs : stale cfg oldManifest (cacheKey cfg.origin k.url) = true
    · simp only [hs, if_true]
      exact fuseBlind_bind (fuseBlind_await (fuseBlind_cacheDelete _ _)) fun _ => ih
    · simp only [hs, if_false]
      exact fuseBlind_bind (fuseBlind_pure _) fun _ => ih

theorem fuseBlind_promote (cfg : Config) : FuseBlind (promote cfg) := by
  unfold promote
  exact fuseBlind_bind (fuseBlind_await (fuseBlind_cacheKeys _)) fun staged =>
    fuseBlind_bind (fuseBlind_populate staged) fun _ =>
    fuseBlind_bind (fuseBlind_await (fuseBlind_cachesDelete _)) fun _ =>
    fuseBlind_bind (fuseBlind_await (fuseBlind_cachePut _ _ _)) fun _ => fuseBlind_clientsClaim

theorem fuseBlind_activateBody (cfg : Config) : FuseBlind (activateBody cfg) := by
  unfold activateBody
  refine fuseBlind_bind (fuseBlind_await (fuseBlind_cachesOpen _)) fun _ =>
    fuseBlind_bind (fuseBlind_await (fuseBlind_cachesOpen _)) fun _ =>
    fuseBlind_bind (fuseBlind_await (fuseBlind_cachesOpen _)) fun _ =>
    fuseBlind_bind (fuseBlind_await (fuseBlind_cacheMatch _ _)) fun manifest => ?_
  cases manifest with
  | none =>
    exact fuseBlind_bind (fuseBlind_await (fuseBlind_cachesDelete _)) fun _ =>
      fuseBlind_bind (fuseBlind_await (fuseBlind_cachesOpen _)) fun _ => fuseBlind_promote cfg
  | some manifest =>
    exact fuseBlind_bind (fuseBlind_await (fuseBlind_responseJson _)) fun oldManifest =>
      fuseBlind_bind (fuseBlind_await (fuseBlind_cacheKeys _)) fun cached =>
      fuseBlind_bind (fuseBlind_invalidate cfg oldManifest cached) fun _ => fuseBlind_promote cfg

/-! ## Caches -/

theorem matchReq_nil (r : Request) : Entries.matchReq [] r = none := rfl

theorem matchReq_cons (e : Request × Response) (c : Entries) (r : Request) :
    Entries.matchReq (e :: c) r = if e.1.target = r.target then some e.2 else Entries.matchReq c r := by
  unfold Entries.matchReq
  by_cases h : e.1.target = r.target <;> simp [List.find?_cons, h]

theorem matchReq_append (c d : Entries) (r : Request) :
    Entries.matchReq (c ++ d) r =
      match Entries.matchReq c r with
      | some v => some v
      | none => Entries.matchReq d r := by
  induction c with
  | nil => simp [matchReq_nil]
  | cons e c ih =>
    rw [List.cons_append, matchReq_cons, matchReq_cons]
    by_cases h : e.1.target = r.target
    · simp [h]
    · simp [h, ih]

theorem matchReq_congr (c : Entries) {r r1 : Request} (h : r.target = r1.target) :
    Entries.matchReq c r = Entries.matchReq c r1 := by
  unfold Entries.matchReq
  rw [h]

theorem matchReq_delete (c : Entries) (k r : Request) :
    Entries.matchReq (Entries.delete c k) r =
      if k.target = r.target then none else Entries.matchReq c r := by
  induction c with
  | nil => simp [Entries.delete, matchReq_nil]
  | cons e c ih =>
    unfold Entries.delete at ih ⊢
    by_cases he : e.1.target = k.target
    · rw [List.filter_cons_of_neg (by simpa using he), ih, matchReq_cons]
      by_cases hk : k.target = r.target
      · simp [hk]
      · have : ¬ e.1.target = r.target := fun h => hk (he ▸ h)
        simp [hk, this]
    · rw [List.filter_cons_of_pos (by simpa using he), matchReq_cons, ih, matchReq_cons]
      by_cases hk : k.target = r.target
      · have : ¬ e.1.target = r.target := fun h => he (h.trans hk.symm)
        simp [hk, this]
      · simp [hk]

theorem matchReq_put (c : Entries) (k r : Request) (v : Response) :
    Entries.matchReq (Entries.put c k v) r =
      if k.target = r.target then some v else Entries.matchReq c r := by
  unfold Entries.put
  rw [matchReq_append, matchReq_delete, matchReq_cons, matchReq_nil]
  by_cases hk : k.target = r.target
  · simp [hk]
  · simp only [hk, if_false]
    cases Entries.matchReq c r <;> rfl

theorem matchReq_some_of_mem {c : Entries} {e : Request × Response} (h : e ∈ c) :
    ∃ v, Entries.matchReq c e.1 = some v := by
  induction c with
  | nil => simp at h
  | cons d c ih =>
    rw [matchReq_cons]
    by_cases hd : d.1.target = e.1.target
    · exact ⟨d.2, by simp [hd]⟩
    · rcases List.mem_cons.1 h with rfl | h
      · exact absurd rfl hd
      · simpa [hd] using ih h

theorem matchReq_some_of_mem_keys {c : Entries} {k : Request} (h : k ∈ Entries.keys c) :
    ∃ v, Entries.matchReq c k = some v := by
  obtain ⟨e, he, rfl⟩ := List.mem_map.1 h
  exact matchReq_some_of_mem he

theorem mem_of_matchReq_some {c : Entries} {r : Request} {v : Response}
    (h : Entries.matchReq c r = some v) : ∃ k, (k, v) ∈ c ∧ k.target = r.target := by
  induction c with
  | nil => simp [matchReq_nil] at h
  | cons d c ih =>
    rw [matchReq_cons] at h
    by_cases hd : d.1.target = r.target
    · simp only [hd, if_true, Option.some.injEq] at h
      exact ⟨d.1, by rw [← h]; exact List.mem_cons_self _ _, hd⟩
    · simp only [hd, if_false] at h
      obtain ⟨k, hk, hu⟩ := ih h
      exact ⟨k, List.mem_cons_of_mem _ hk, hu⟩

theorem matchReq_none_iff {c : Entries} {r : Request} :
    Entries.matchReq c r = none ↔ ∀ e ∈ c, e.1.target ≠ r.target := by
  induction c with
  | nil => simp [matchReq_nil]
  | cons d c ih =>
    rw [matchReq_cons]
    by_cases hd : d.1.target = r.target
    · simp [hd]
    · simp [hd, ih]

theorem mem_delete {c : Entries} {k : Request} {e : Request × Response} :
    e ∈ Entries.delete c k ↔ e ∈ c ∧ e.1.target ≠ k.target := by
  simp [Entries.delete]

theorem mem_put {c : Entries} {k : Request} {v : Response} {e : Request × Response} :
    e ∈ Entries.put c k v ↔ (e ∈ c ∧ e.1.target ≠ k.target) ∨ e = (k, v) := by
  simp [Entries.put, mem_delete]

theorem delete_eq_self {c : Entries} {k : Request} (h : ∀ e ∈ c, e.1.target ≠ k.target) :
    Entries.delete c k = c := by
  unfold Entries.delete
  exact List.filter_eq_self.2 fun e he => by simpa using h e he

theorem delete_put (c : Entries) (k : Request) (v : Response) :
    Entries.delete (Entries.put c k v) k = Entries.delete c k := by
  unfold Entries.put Entries.delete
  simp [List.filter_append, List.filter_filter]

theorem put_put (c : Entries) (k : Request) (v : Response) :
    Entries.put (Entries.put c k v) k v = Entries.put c k v := by
  show Entries.delete (Entries.put c k v) k ++ [(k, v)] = Entries.put c k v
  rw [delete_put]
  rfl

theorem put_eq_singleton {c : Entries} {k : Request} (v : Response)
    (h : ∀ e ∈ c, e.1.target = k.target) : Entries.put c k v = [(k, v)] := by
  unfold Entries.put Entries.delete
  have : c.filter (fun e => decide (e.1.target ≠ k.target)) = [] :=
    List.filter_eq_nil_iff.2 fun e he => by simpa using h e he
  rw [this]
  rfl


theorem distinct_eq {c : Entries} (hc : Entries.Distinct c) {e d : Request × Response}
    (he : e ∈ c) (hd : d ∈ c) (h : e.1.target = d.1.target) : e = d := by
  unfold Entries.Distinct at hc
  induction c with
  | nil => simp at he
  | cons x c ih =>
    rw [List.pairwise_cons] at hc
    rcases List.mem_cons.1 he with he1 | he1
    · rcases List.mem_cons.1 hd with hd1 | hd1
      · rw [he1, hd1]
      · rw [he1] at h
        exact absurd h (hc.1 d hd1)
    · rcases List.mem_cons.1 hd with hd1 | hd1
      · rw [hd1] at h
        exact absurd h.symm (hc.1 e he1)
      · exact ih hc.2 he1 hd1

theorem Cache.ext {c d : Cache} (h : c.entries = d.entries) : c = d := by
  cases c
  cases d
  cases h
  rfl

theorem put_entries (c : Cache) (k : Request) (v : Response) :
    (Cache.put c k v).entries = Entries.put c.entries k v := rfl

theorem delete_entries (c : Cache) (k : Request) :
    (Cache.delete c k).entries = Entries.delete c.entries k := rfl

theorem cache_put_put (c : Cache) (k : Request) (v : Response) :
    Cache.put (Cache.put c k v) k v = Cache.put c k v :=
  Cache.ext (put_put c.entries k v)

theorem cache_put_eq_single {c : Cache} {k : Request} (v : Response)
    (h : ∀ e ∈ c.entries, e.1.target = k.target) : Cache.put c k v = Cache.single k v :=
  Cache.ext (put_eq_singleton v h)

/-! ## The two loops of activation as cache transformers -/

theorem sweep_entries (cfg : Config) (oldManifest : Manifest) (ks : List Request) (c : Cache) :
    (sweep cfg oldManifest ks c).entries =
      c.entries.filter (fun e => !(ks.any (fun k => decide (k.target = e.1.target) &&
        stale cfg oldManifest (cacheKey cfg.origin k.url)))) := by
  induction ks generalizing c with
  | nil => simp [sweep]
  | cons k rest ih =>
    rw [sweep, ih]
    by_cases hs : stale cfg oldManifest (cacheKey cfg.origin k.url) = true
    · simp only [hs, if_true, delete_entries, Entries.delete, List.filter_filter]
      apply List.filter_congr
      intro e _
      by_cases he : e.1.target = k.target
      · simp [he, hs]
      · have he1 : ¬ k.target = e.1.target := fun h => he h.symm
        simp [he, he1]
    · have hs1 : stale cfg oldManifest (cacheKey cfg.origin k.url) = false := by simpa using hs
      simp only [hs1, Bool.false_eq_true, if_false]
      apply List.filter_congr
      intro e _
      simp [hs1]

theorem sweep_keys (cfg : Config) (oldManifest : Manifest) (c : Cache) :
    (sweep cfg oldManifest (Cache.keys c) c).entries =
      c.entries.filter (fun e => !stale cfg oldManifest (cacheKey cfg.origin e.1.url)) := by
  rw [sweep_entries]
  apply List.filter_congr
  intro e he
  congr 1
  by_cases hs : stale cfg oldManifest (cacheKey cfg.origin e.1.url) = true
  · rw [hs, List.any_eq_true]
    exact ⟨e.1, List.mem_map.2 ⟨e, he, rfl⟩, by simp [hs]⟩
  · have hs1 : stale cfg oldManifest (cacheKey cfg.origin e.1.url) = false := by simpa using hs
    rw [hs1, List.any_eq_false]
    intro k hk
    obtain ⟨d, hd, rfl⟩ := List.mem_map.1 hk
    by_cases ht : d.1.target = e.1.target
    · have := distinct_eq c.distinct hd he ht
      subst this
      simp [hs1]
    · simp [ht]

theorem matchReq_copyStaged (staging : Cache) (ks : List Request) (c : Cache) (r : Request)
    (h : ∀ k ∈ ks, Cache.matchReq staging k ≠ none) :
    Cache.matchReq (copyStaged staging ks c) r =
      if r.target ∈ ks.map Request.target then Cache.matchReq staging r
      else Cache.matchReq c r := by
  induction ks generalizing c with
  | nil => simp [copyStaged]
  | cons k rest ih =>
    have hk := h k (List.mem_cons_self _ _)
    rcases hv : Cache.matchReq staging k with _ | v
    · exact absurd hv hk
    · rw [copyStaged, hv]
      simp only
      rw [ih _ (fun k1 hk1 => h k1 (List.mem_cons_of_mem _ hk1))]
      unfold Cache.matchReq at hv ⊢
      rw [put_entries, matchReq_put]
      by_cases hr : r.target ∈ rest.map Request.target
      · simp [hr]
      · by_cases hkr : k.target = r.target
        · rw [← matchReq_congr staging.entries hkr, hv]
          simp [hr, hkr]
        · have : ¬ r.target = k.target := fun h => hkr h.symm
          simp [hr, hkr, this]

theorem mem_copyStaged {staging : Cache} {ks : List Request} {c : Cache}
    {e : Request × Response} (h : e ∈ (copyStaged staging ks c).entries) :
    e ∈ c.entries ∨ (e.1 ∈ ks ∧ Cache.matchReq staging e.1 = some e.2) := by
  induction ks generalizing c with
  | nil => exact Or.inl h
  | cons k rest ih =>
    rw [copyStaged] at h
    rcases hv : Cache.matchReq staging k with _ | v
    · rw [hv] at h
      exact Or.inl h
    · rw [hv] at h
      rcases ih h with h1 | ⟨h1, h2⟩
      · rw [put_entries] at h1
        rcases mem_put.1 h1 with ⟨h3, _⟩ | rfl
        · exact Or.inl h3
        · exact Or.inr ⟨List.mem_cons_self _ _, hv⟩
      · exact Or.inr ⟨List.mem_cons_of_mem _ h1, h2⟩

theorem mem_copyStaged_of_mem {staging : Cache} {ks : List Request} {c : Cache}
    {e : Request × Response} (he : e ∈ c.entries) (h : ∀ k ∈ ks, k.target ≠ e.1.target) :
    e ∈ (copyStaged staging ks c).entries := by
  induction ks generalizing c with
  | nil => exact he
  | cons k rest ih =>
    rw [copyStaged]
    rcases hv : Cache.matchReq staging k with _ | v
    · exact he
    · simp only
      apply ih _ (fun k1 hk1 => h k1 (List.mem_cons_of_mem _ hk1))
      rw [put_entries]
      exact mem_put.2 (Or.inl ⟨he, fun hu => h k (List.mem_cons_self _ _) hu.symm⟩)

theorem matchReq_keys_ne_none (c : Cache) : ∀ k ∈ Cache.keys c, Cache.matchReq c k ≠ none := by
  intro k hk
  obtain ⟨v, hv⟩ := matchReq_some_of_mem_keys hk
  unfold Cache.matchReq
  rw [hv]
  simp

/-! ## Activation without injected faults -/

theorem opens_normal (s : CacheStorage) :
    ((s.openCache .CACHE_NAME).openCache .TEMP).openCache .MANIFEST =
      { manifest := some (s.cache .MANIFEST), temp := some (s.cache .TEMP),
        content := some (s.cache .CACHE_NAME) } := by
  obtain ⟨m, t, c⟩ := s
  cases m <;> cases t <;> cases c <;> rfl

theorem populate_run (ks : List Request) (w : World) (M : Option Cache) (T C : Cache)
    (hf : w.fuse = []) (hc : w.caches = { manifest := M, temp := some T, content := some C })
    (h : ∀ k ∈ ks, Cache.matchReq T k ≠ none) :
    populate ks w = (.ok (), { w with caches :=
      { manifest := M, temp := some T, content := some (copyStaged T ks C) } }) := by
  induction ks generalizing w C with
  | nil =>
    obtain ⟨caches, fuse, claimed, sw, con, del, fe⟩ := w
    simp only at hc
    subst hc
    rfl
  | cons k rest ih =>
    obtain ⟨caches, fuse, claimed, sw, con, del, fe⟩ := w
    simp only at hc hf
    subst hc hf
    have hk := h k (List.mem_cons_self _ _)
    rcases hv : Cache.matchReq T k with _ | v
    · exact absurd hv hk
    · unfold populate
      rw [bind_run, await_run_none _ rfl]
      simp only [cacheMatch, CacheStorage.cache, CacheStorage.get, Option.getD_some, hv]
      rw [bind_run, await_run_none _ rfl]
      simp only [cachePut, CacheStorage.update, CacheStorage.get, CacheStorage.set]
      rw [ih _ (Cache.put C k v) rfl rfl (fun k1 hk1 => h k1 (List.mem_cons_of_mem _ hk1))]
      simp only [copyStaged, hv]

theorem invalidate_run (cfg : Config) (oldManifest : Manifest) (ks : List Request) (w : World)
    (M T : Option Cache) (C : Cache)
    (hf : w.fuse = []) (hc : w.caches = { manifest := M, temp := T, content := some C }) :
    invalidate cfg oldManifest ks w = (.ok (), { w with
      caches := { manifest := M, temp := T, content := some (sweep cfg oldManifest ks C) },
      deleted := w.deleted ++
        ks.filter (fun k => stale cfg oldManifest (cacheKey cfg.origin k.url)) }) := by
  induction ks generalizing w C with
  | nil =>
    obtain ⟨caches, fuse, claimed, sw, con, del, fe⟩ := w
    simp only at hc
    subst hc
    simp [invalidate, sweep, pure_run]
  | cons k rest ih =>
    obtain ⟨caches, fuse, claimed, sw, con, del, fe⟩ := w
    simp only at hc hf
    subst hc hf
    unfold invalidate
    by_cases hs : stale cfg oldManifest (cacheKey cfg.origin k.url) = true
    · simp only [hs, if_true]
      rw [bind_run, await_run_none _ rfl]
      simp only [cacheDelete, CacheStorage.update, CacheStorage.get, CacheStorage.set]
      rw [ih _ (Cache.delete C k) rfl rfl]
      simp [sweep, hs, List.filter_cons]
    · simp only [hs]
      rw [if_neg (by simp), bind_run, pure_run]
      simp only
      rw [ih _ C rfl rfl]
      simp [sweep, hs, List.filter_cons]

theorem promote_run (cfg : Config) (w : World) (M T C : Cache)
    (hf : w.fuse = [])
    (hc : w.caches = { manifest := some M, temp := some T, content := some C }) :
    promote cfg w = (.ok (), { w with
      caches := { manifest := some (Cache.put M (manifestRequest cfg.origin)
                    (newResponse (JSON_stringify cfg.RESOURCES))),
                  temp := none,
                  content := some (copyStaged T (Cache.keys T) C) },
      claimed := true }) := by
  obtain ⟨caches, fuse, claimed, sw, con, del, fe⟩ := w
  simp only at hc hf
  subst hc hf
  unfold promote
  rw [bind_run, await_run_none _ rfl]
  simp only [cacheKeys, CacheStorage.cache, CacheStorage.get, Option.getD_some]
  rw [bind_run, populate_run (Cache.keys T) _ (some M) T C rfl rfl
    (matchReq_keys_ne_none T)]
  simp only
  rw [bind_run, await_run_none _ rfl]
  simp only [cachesDelete, CacheStorage.deleteCache, CacheStorage.set]
  rw [bind_run, await_run_none _ rfl]
  simp only [cachePut, CacheStorage.update, CacheStorage.get, CacheStorage.set, clientsClaim]

theorem activateBody_run_first (cfg : Config) (w : World) (hf : w.fuse = [])
    (hm : FirstInstallPath cfg w) :
    activateBody cfg w = (.ok (), { w with
      caches := { manifest := some (Cache.put (w.caches.cache .MANIFEST)
                    (manifestRequest cfg.origin) (newResponse (JSON_stringify cfg.RESOURCES))),
                  temp := none,
                  content := some (copyStaged (w.caches.cache .TEMP)
                    (Cache.keys (w.caches.cache .TEMP)) Cache.empty) },
      claimed := true }) := by
  obtain ⟨caches, fuse, claimed, sw, con, del, fe⟩ := w
  simp only at hf
  subst hf
  have hm : Cache.matchReq (CacheStorage.cache caches .MANIFEST) (manifestRequest cfg.origin)
      = none := hm
  unfold activateBody
  rw [bind_run, await_run_none _ rfl]
  simp only [cachesOpen]
  rw [bind_run, await_run_none _ rfl]
  simp only [cachesOpen]
  rw [bind_run, await_run_none _ rfl]
  simp only [cachesOpen, opens_normal]
  rw [bind_run, await_run_none _ rfl]
  simp only [cacheMatch, CacheStorage.cache, CacheStorage.get, Option.getD_some]
  simp only [CacheStorage.cache, CacheStorage.get] at hm
  rw [hm]
  simp only
  rw [bind_run, await_run_none _ rfl]
  simp only [cachesDelete, CacheStorage.deleteCache, CacheStorage.set]
  rw [bind_run, await_run_none _ rfl]
  simp only [cachesOpen, CacheStorage.openCache, CacheStorage.get, CacheStorage.set]
  rw [promote_run cfg _ _ _ Cache.empty rfl rfl]

theorem activateBody_run_upgrade (cfg : Config) (w : World) (stored : Response)
    (oldManifest : Manifest) (hf : w.fuse = [])
    (hm : Cache.matchReq (w.caches.cache .MANIFEST) (manifestRequest cfg.origin) = some stored)
    (hb : stored.body = .json oldManifest) :
    activateBody cfg w = (.ok (), { w with
      caches := { manifest := some (Cache.put (w.caches.cache .MANIFEST)
                    (manifestRequest cfg.origin) (newResponse (JSON_stringify cfg.RESOURCES))),
                  temp := none,
                  content := some (copyStaged (w.caches.cache .TEMP)
                    (Cache.keys (w.caches.cache .TEMP))
                    (sweep cfg oldManifest (Cache.keys (w.caches.cache .CACHE_NAME))
                      (w.caches.cache .CACHE_NAME))) },
      claimed := true,
      deleted := w.deleted ++ (Cache.keys (w.caches.cache .CACHE_NAME)).filter
        (fun k => stale cfg oldManifest (cacheKey cfg.origin k.url)) }) := by
  obtain ⟨caches, fuse, claimed, sw, con, del, fe⟩ := w
  simp only at hf
  subst hf
  simp only at hm
  unfold activateBody
  rw [bind_run, await_run_none _ rfl]
  simp only [cachesOpen]
  rw [bind_run, await_run_none _ rfl]
  simp only [cachesOpen]
  rw [bind_run, await_run_none _ rfl]
  simp only [cachesOpen, opens_normal]
  rw [bind_run, await_run_none _ rfl]
  simp only [cacheMatch, CacheStorage.cache, CacheStorage.get, Option.getD_some]
  simp only [CacheStorage.cache, CacheStorage.get] at hm
  rw [hm]
  simp only
  rw [bind_run, await_run_none _ rfl]
  simp only [responseJson, hb]
  rw [bind_run, await_run_none _ rfl]
  simp only [cacheKeys, CacheStorage.cache, CacheStorage.get, Option.getD_some]
  rw [bind_run, invalidate_run cfg oldManifest _ _ _ _ _ rfl rfl]
  simp only
  rw [promote_run cfg _ _ _ _ rfl rfl]

/-! ## Activation as a whole -/

theorem activateBody_ok_disarm {cfg : Config} {w : World}
    (hok : (activateBody cfg w).1 = .ok ()) :
    activateBody cfg (disarm w) = (.ok (), disarm (activateBody cfg w).2) :=
  fuseBlind_activateBody cfg w () (activateBody cfg w).2 (Prod.ext hok rfl)

theorem activate_of_ok {cfg : Config} {w : World} (hok : (activateBody cfg w).1 = .ok ()) :
    activate cfg w = (.ok (), (activateBody cfg w).2) := by
  unfold activate tryCatch
  rcases hr : activateBody cfg w with ⟨r, w1⟩
  rw [hr] at hok
  simp only at hok
  subst hok
  rfl

theorem activate_of_error {cfg : Config} {w : World} {err : Err}
    (h : (activateBody cfg w).1 = .error err) :
    activate cfg w = activateCatch err (activateBody cfg w).2 := by
  unfold activate tryCatch
  rcases hr : activateBody cfg w with ⟨r, w1⟩
  rw [hr] at h
  simp only at h
  subst h
  rfl

theorem deleteCache_all (s : CacheStorage) :
    ((s.deleteCache .CACHE_NAME).deleteCache .TEMP).deleteCache .MANIFEST
      = CacheStorage.empty := rfl

theorem activateCatch_run (err : Err) (w : World) (h : CleanupUnfaulted w) :
    (activateCatch err w).1 = .ok () ∧
    (activateCatch err w).2.caches = CacheStorage.empty ∧
    (activateCatch err w).2.console = w.console ++ [err] := by
  obtain ⟨caches, fuse, claimed, sw, con, del, fe⟩ := w
  unfold CleanupUnfaulted at h
  simp only at h
  unfold activateCatch
  rcases fuse with _ | ⟨n, rest⟩
  · simp [bind_run, consoleError, await, cachesDelete, deleteCache_all]
  · obtain ⟨m, rfl⟩ : ∃ m, n = m + 3 := ⟨n - 3, by omega⟩
    simp [bind_run, consoleError, await, cachesDelete, deleteCache_all]

theorem activateCatch_faulted (err : Err) (w : World) (h : ¬ CleanupUnfaulted w) :
    (activateCatch err w).1 = .error .storage := by
  obtain ⟨caches, fuse, claimed, sw, con, del, fe⟩ := w
  unfold CleanupUnfaulted at h
  simp only at h
  unfold activateCatch
  rcases fuse with _ | ⟨n, rest⟩
  · exact absurd trivial h
  · have hn : n < 3 := by omega
    rcases n with _ | _ | _ | n
    · simp only [bind_run, consoleError, await]
    · simp only [bind_run, consoleError, await, cachesDelete]
    · simp only [bind_run, consoleError, await, cachesDelete]
    · omega

theorem activateBody_run_corrupt (cfg : Config) (w : World) (stored : Response) (text : Str)
    (hf : w.fuse = [])
    (hm : Cache.matchReq (w.caches.cache .MANIFEST) (manifestRequest cfg.origin) = some stored)
    (hb : stored.body = .raw text) :
    (activateBody cfg w).1 = .error .syntaxError := by
  obtain ⟨caches, fuse, claimed, sw, con, del, fe⟩ := w
  simp only at hf
  subst hf
  simp only at hm
  unfold activateBody
  rw [bind_run, await_run_none _ rfl]
  simp only [cachesOpen]
  rw [bind_run, await_run_none _ rfl]
  simp only [cachesOpen]
  rw [bind_run, await_run_none _ rfl]
  simp only [cachesOpen, opens_normal]
  rw [bind_run, await_run_none _ rfl]
  simp only [cacheMatch, CacheStorage.cache, CacheStorage.get, Option.getD_some]
  simp only [CacheStorage.cache, CacheStorage.get] at hm
  rw [hm]
  simp only
  rw [bind_run, await_run_none _ rfl]
  simp only [responseJson, hb]

/-- The storage a completed first-install activation leaves. -/
theorem activate_ok_first {cfg : Config} {w : World} (hm : FirstInstallPath cfg w)
    (hok : (activateBody cfg w).1 = .ok ()) :
    (activate cfg w).2.caches =
      { manifest := some (Cache.put (w.caches.cache .MANIFEST)
          (manifestRequest cfg.origin) (newResponse (JSON_stringify cfg.RESOURCES))),
        temp := none,
        content := some (copyStaged (w.caches.cache .TEMP)
          (Cache.keys (w.caches.cache .TEMP)) Cache.empty) } ∧
    (activate cfg w).2.deleted = w.deleted := by
  have h1 := activateBody_ok_disarm hok
  rw [activateBody_run_first cfg (disarm w) rfl hm] at h1
  rw [activate_of_ok hok]
  have h2 := congrArg Prod.snd h1
  simp only at h2
  constructor
  · have := congrArg World.caches h2
    simpa [disarm] using this.symm
  · have := congrArg World.deleted h2
    simpa [disarm] using this.symm

/-- The storage and the deletions a completed upgrade activation leaves. -/
theorem activate_ok_upgrade {cfg : Config} {w : World} {stored : Response}
    {oldManifest : Manifest}
    (hm : Cache.matchReq (w.caches.cache .MANIFEST) (manifestRequest cfg.origin) = some stored)
    (hb : stored.body = .json oldManifest)
    (hok : (activateBody cfg w).1 = .ok ()) :
    (activate cfg w).2.caches =
      { manifest := some (Cache.put (w.caches.cache .MANIFEST)
          (manifestRequest cfg.origin) (newResponse (JSON_stringify cfg.RESOURCES))),
        temp := none,
        content := some (copyStaged (w.caches.cache .TEMP)
          (Cache.keys (w.caches.cache .TEMP))
          (sweep cfg oldManifest (Cache.keys (w.caches.cache .CACHE_NAME))
            (w.caches.cache .CACHE_NAME))) } ∧
    (activate cfg w).2.deleted = w.deleted ++
      (Cache.keys (w.caches.cache .CACHE_NAME)).filter
        (fun k => stale cfg oldManifest (cacheKey cfg.origin k.url)) := by
  have h1 := activateBody_ok_disarm hok
  rw [activateBody_run_upgrade cfg (disarm w) stored oldManifest rfl hm hb] at h1
  rw [activate_of_ok hok]
  have h2 := congrArg Prod.snd h1
  simp only at h2
  constructor
  · have := congrArg World.caches h2
    simpa [disarm] using this.symm
  · have := congrArg World.deleted h2
    simpa [disarm] using this.symm

theorem stored_json_of_ok {cfg : Config} {w : World} {stored : Response}
    (hm : Cache.matchReq (w.caches.cache .MANIFEST) (manifestRequest cfg.origin) = some stored)
    (hok : (activateBody cfg w).1 = .ok ()) : ∃ oldManifest, stored.body = .json oldManifest := by
  cases hb : stored.body with
  | json object => exact ⟨object, rfl⟩
  | raw text =>
    have h1 := activateBody_ok_disarm hok
    have h2 := activateBody_run_corrupt cfg (disarm w) stored text rfl hm hb
    rw [h1] at h2
    simp at h2

theorem looseNe_self (text : Str → Str) (v : Value) : looseNe text v v = false := by
  cases v <;> simp [looseNe]

theorem not_stale_of_unchanged {cfg : Config} {oldManifest : Manifest} {key checksum : Str}
    (hnew : getProp cfg.RESOURCES key = .str checksum)
    (hold : getProp oldManifest key = .str checksum) (hsum : checksum ≠ []) :
    stale cfg oldManifest key = false := by
  unfold stale
  cases checksum with
  | nil => exact absurd rfl hsum
  | cons c cs => simp [hnew, hold, truthy, looseNe]

theorem deletedDuring_eq {α : Type} {a : Act α} {w : World} {ds : List Request}
    (h : (a w).2.deleted = w.deleted ++ ds) : deletedDuring a w = ds := by
  unfold deletedDuring
  rw [h, List.drop_left]

/-! ## Upgrade: selective invalidation -/

/-- C1. On the upgrade path (the manifest store holds the serialisation of an old
manifest), let an entry of the content partition have a logical key that the old
manifest and RESOURCES both map to the same checksum. When activation completes
without an exception, no delete call was made for a request matching that entry, the
content partition still holds an entry for that request, and it holds the very same
entry unless staging holds an entry for the same request (which then replaces it). -/
theorem upgrade_keeps_unchanged (cfg : Config) (w : World) (stored : Response)
    (oldManifest : Manifest) (request : Request) (response : Response) (checksum : Str)
    (hstored : Entries.matchReq (w.caches.entries .MANIFEST) (manifestRequest cfg.origin)
      = some stored)
    (hjson : stored.body = .json oldManifest)
    (hentry : (request, response) ∈ w.caches.entries .CACHE_NAME)
    (hnew : getProp cfg.RESOURCES (cacheKey cfg.origin request.url) = .str checksum)
    (hold : getProp oldManifest (cacheKey cfg.origin request.url) = .str checksum)
    (hsum : checksum ≠ [])
    (hok : (activateBody cfg w).1 = .ok ()) :
    (∀ d ∈ deletedDuring (activate cfg) w, d.target ≠ request.target) ∧
    request.target ∈
      (Entries.keys ((activate cfg w).2.caches.entries .CACHE_NAME)).map Request.target ∧
    ((∀ k ∈ Entries.keys (w.caches.entries .TEMP), k.target ≠ request.target) →
      (request, response) ∈ (activate cfg w).2.caches.entries .CACHE_NAME) := by
  obtain ⟨hc, hd⟩ := activate_ok_upgrade hstored hjson hok
  have hns := not_stale_of_unchanged hnew hold hsum
  have hswept : (request, response) ∈
      (sweep cfg oldManifest (Cache.keys (w.caches.cache .CACHE_NAME))
        (w.caches.cache .CACHE_NAME)).entries := by
    rw [sweep_keys, List.mem_filter]
    exact ⟨hentry, by simp [hns]⟩
  refine ⟨?_, ?_, ?_⟩
  · rw [deletedDuring_eq hd]
    intro d hdm hu
    obtain ⟨hdk, hds⟩ := List.mem_filter.1 hdm
    obtain ⟨e, he, rfl⟩ := List.mem_map.1 hdk
    have := distinct_eq (w.caches.cache .CACHE_NAME).distinct he hentry hu
    subst this
    rw [hns] at hds
    exact Bool.false_ne_true hds
  · rw [hc]
    simp only [CacheStorage.entries, CacheStorage.cache, CacheStorage.get, Option.getD_some]
    have hmatch := matchReq_copyStaged (w.caches.cache .TEMP)
      (Cache.keys (w.caches.cache .TEMP))
      (sweep cfg oldManifest (Cache.keys (w.caches.cache .CACHE_NAME))
        (w.caches.cache .CACHE_NAME)) request (matchReq_keys_ne_none _)
    have hsome : ∃ v, Cache.matchReq (copyStaged (w.caches.cache .TEMP)
        (Cache.keys (w.caches.cache .TEMP))
        (sweep cfg oldManifest (Cache.keys (w.caches.cache .CACHE_NAME))
          (w.caches.cache .CACHE_NAME))) request = some v := by
      rw [hmatch]
      by_cases hst : request.target ∈ (Cache.keys (w.caches.cache .TEMP)).map Request.target
      · rw [if_pos hst]
        obtain ⟨k, hk, hku⟩ := List.mem_map.1 hst
        obtain ⟨v, hv⟩ := matchReq_some_of_mem_keys hk
        exact ⟨v, by unfold Cache.matchReq; rw [← matchReq_congr _ hku, hv]⟩
      · rw [if_neg hst]
        exact matchReq_some_of_mem hswept
    obtain ⟨v, hv⟩ := hsome
    obtain ⟨k, hk, hku⟩ := mem_of_matchReq_some hv
    exact List.mem_map.2 ⟨k, List.mem_map.2 ⟨(k, v), hk, rfl⟩, hku⟩
  · intro hns2
    rw [hc]
    simp only [CacheStorage.entries, CacheStorage.cache, CacheStorage.get, Option.getD_some]
    exact mem_copyStaged_of_mem hswept hns2
/-- C2, at the failing input. The shipped worker on origin https://x upgrades from
a build with the same manifest; the content partition holds https://x/old.js and
https://x/constructor, whose logical keys old.js and constructor are keys of
neither manifest. For old.js the test of line 127 is true and the entry is
deleted. For constructor both reads give the same inherited member, the test is
false, and activation completes with the entry still in the content partition and
no delete call made for it. -/
theorem upgrade_keeps_inherited_key :
    cacheKey (thisBuild "https://x".toList).origin "https://x/constructor".toList
      = "constructor".toList ∧
    "constructor".toList ∉ objectKeys (thisBuild "https://x".toList).RESOURCES ∧
    getProp (thisBuild "https://x".toList).RESOURCES "constructor".toList
      = .inherited "constructor".toList ∧
    stale (thisBuild "https://x".toList) RESOURCES "constructor".toList = false ∧
    stale (thisBuild "https://x".toList) RESOURCES "old.js".toList = true ∧
    (activateBody (thisBuild "https://x".toList) shippedUpgradeWorld).1 = .ok () ∧
    (activate (thisBuild "https://x".toList) shippedUpgradeWorld).2.caches.entries .CACHE_NAME
      = [({ url := "https://x/constructor".toList }, textResponse "page")] ∧
    deletedDuring (activate (thisBuild "https://x".toList)) shippedUpgradeWorld
      = [{ url := "https://x/old.js".toList }] := by
  have hok : (activateBody (thisBuild "https://x".toList) shippedUpgradeWorld).1 = .ok () := by
    rfl
  obtain ⟨hc, hd⟩ := activate_ok_upgrade
    (show Cache.matchReq (shippedUpgradeWorld.caches.cache .MANIFEST)
      (manifestRequest (thisBuild "https://x".toList).origin)
        = some (newResponse (JSON_stringify RESOURCES))
      from by rfl) rfl hok
  refine ⟨by decide, by decide, by decide, by decide, by decide, hok, ?_, ?_⟩
  · rw [hc]
    decide
  · rw [deletedDuring_eq hd]
    decide

/-! ## Failure of activation -/

theorem update_manifest (s : CacheStorage) (name : CacheName) (f : Cache → Cache)
    (hn : name ≠ .MANIFEST) : (s.update name f).manifest = s.manifest := by
  unfold CacheStorage.update
  cases name with
  | MANIFEST => exact absurd rfl hn
  | TEMP => cases h : s.get .TEMP <;> rfl
  | CACHE_NAME => cases h : s.get .CACHE_NAME <;> rfl

theorem openCache_manifest (s : CacheStorage) (name : CacheName) (hn : name ≠ .MANIFEST) :
    (s.openCache name).manifest = s.manifest := by
  unfold CacheStorage.openCache
  cases name with
  | MANIFEST => exact absurd rfl hn
  | TEMP => cases h : s.get .TEMP <;> rfl
  | CACHE_NAME => cases h : s.get .CACHE_NAME <;> rfl

theorem cacheAddAll_manifest (name : CacheName) (net : Network) (rs : List Request)
    (w : World) (hn : name ≠ .MANIFEST) :
    (cacheAddAll name net rs w).2.caches.manifest = w.caches.manifest := by
  unfold cacheAddAll
  simp only
  split
  · rfl
  · split
    · exact update_manifest _ _ _ hn
    · rfl

theorem install_manifest (cfg : Config) (net : Network) (w : World) :
    (install cfg net w).2.caches.manifest = w.caches.manifest := by
  unfold install
  rw [bind_run]
  simp only [skipWaiting]
  rw [bind_run]
  simp only [cachesOpen]
  rw [cacheAddAll_manifest _ _ _ _ (by decide)]
  exact openCache_manifest _ _ (by decide)

/-- C3, as the code has it. Whatever the state, when a step of the guarded block
throws (an awaited step failing, or the stored manifest being rejected by json()),
the catch block logs the exception and awaits three deletions. When none of these
fails, the promise of the activate handler is fulfilled, none of the three
partitions exists afterwards, and an activation that follows any later install, of
any build, finds no stored manifest and so takes the first-install path. When one
of the three deletions fails, the promise is rejected. -/
theorem activation_failure_resets (cfg : Config) (w : World) (err : Err)
    (hthrow : (activateBody cfg w).1 = .error err) :
    (CleanupUnfaulted (activateBody cfg w).2 →
      (activate cfg w).1 = .ok () ∧
      (activate cfg w).2.caches.content = none ∧
      (activate cfg w).2.caches.temp = none ∧
      (activate cfg w).2.caches.manifest = none ∧
      (activate cfg w).2.console = (activateBody cfg w).2.console ++ [err] ∧
      ∀ (next : Config) (net : Network),
        FirstInstallPath next (install next net (activate cfg w).2).2) ∧
    (¬ CleanupUnfaulted (activateBody cfg w).2 →
      (activate cfg w).1 = .error .storage) := by
  rw [activate_of_error hthrow]
  constructor
  · intro hclean
    obtain ⟨h1, h2, h3⟩ := activateCatch_run err _ hclean
    refine ⟨h1, by rw [h2]; rfl, by rw [h2]; rfl, by rw [h2]; rfl, h3, ?_⟩
    intro next net
    unfold FirstInstallPath
    simp only [CacheStorage.entries, CacheStorage.cache, CacheStorage.get, install_manifest, h2]
    rfl
  · intro hfault
    exact activateCatch_faulted err _ hfault

/-- C3, refuted as stated. In the upgrade scenario the fifth awaited step of
activation throws and so does the next awaited step, the first deletion of the
catch block: the promise of the activate handler is rejected, and all three
partitions still exist. -/
theorem activation_cleanup_fault_escapes :
    (activateBody upgradeBuild doubleFaultWorld).1 = .error .storage ∧
    (activate upgradeBuild doubleFaultWorld).1 = .error .storage ∧
    (activate upgradeBuild doubleFaultWorld).2.caches.content = some upgradeContent ∧
    (activate upgradeBuild doubleFaultWorld).2.caches.temp ≠ none ∧
    (activate upgradeBuild doubleFaultWorld).2.caches.manifest ≠ none := by
  refine ⟨by rfl, by rfl, by decide, by decide, by decide⟩

/-! ## What a completed activation leaves -/

/-- C5. In a state whose manifest store holds no entry under a key other than
'manifest', every activation that completes without an exception, on either path,
leaves a manifest store with exactly one entry, keyed 'manifest', whose body is the
serialisation of RESOURCES, and leaves no staging partition. -/
theorem activation_saves_manifest (cfg : Config) (w : World)
    (howned : ManifestStoreOwned cfg.origin w.caches)
    (hok : (activateBody cfg w).1 = .ok ()) :
    (activate cfg w).2.caches.manifest =
      some (Cache.single (manifestRequest cfg.origin)
        (newResponse (JSON_stringify cfg.RESOURCES))) ∧
    (activate cfg w).2.caches.temp = none := by
  have hput : Cache.put (w.caches.cache .MANIFEST) (manifestRequest cfg.origin)
      (newResponse (JSON_stringify cfg.RESOURCES)) =
      Cache.single (manifestRequest cfg.origin) (newResponse (JSON_stringify cfg.RESOURCES)) :=
    cache_put_eq_single _ fun e he => by
      unfold Request.target
      rw [howned e he]
  rcases hm : Cache.matchReq (w.caches.cache .MANIFEST) (manifestRequest cfg.origin)
    with _ | stored
  · obtain ⟨hc, _⟩ := activate_ok_first hm hok
    rw [hc, hput]
    exact ⟨rfl, rfl⟩
  · obtain ⟨oldManifest, hb⟩ := stored_json_of_ok hm hok
    obtain ⟨hc, _⟩ := activate_ok_upgrade hm hb hok
    rw [hc, hput]
    exact ⟨rfl, rfl⟩

theorem copyStaged_suffix (staging : Cache) (t : Entries) (acc : Cache)
    (h : staging.entries = acc.entries ++ t) :
    (copyStaged staging (Entries.keys t) acc).entries = staging.entries := by
  induction t generalizing acc with
  | nil => simpa [Entries.keys, copyStaged] using h.symm
  | cons e t ih =>
    have hnd := staging.distinct
    unfold Entries.Distinct at hnd
    rw [h, List.pairwise_append] at hnd
    have hacc : ∀ d ∈ acc.entries, d.1.target ≠ e.1.target := fun d hd =>
      hnd.2.2 d hd e (List.mem_cons_self _ _)
    have hv : Cache.matchReq staging e.1 = some e.2 := by
      unfold Cache.matchReq
      rw [h, matchReq_append, matchReq_none_iff.2 hacc, matchReq_cons]
      simp
    show (copyStaged staging (e.1 :: Entries.keys t) acc).entries = staging.entries
    rw [copyStaged, hv]
    simp only
    apply ih
    rw [put_entries, h]
    unfold Entries.put
    rw [delete_eq_self hacc]
    simp

theorem copyStaged_self (staging : Cache) :
    copyStaged staging (Cache.keys staging) Cache.empty = staging :=
  Cache.ext (copyStaged_suffix staging staging.entries Cache.empty rfl)

theorem scenario_install (origin : Str) (net : Network) (response : Response)
    (hnet : net (origin ++ "/a".toList) = .ok response) (hresp : response.ok = true) :
    install (scenarioBuild origin) net freshWorld =
      (.ok (), { freshWorld with
        skippedWaiting := true,
        fetched := [origin ++ "/a".toList],
        caches := { manifest := none, content := none,
                    temp := some (Cache.single { url := origin ++ "/a".toList } response) } }) := by
  have hurl : resolveUrl origin "a".toList = origin ++ "/a".toList := by
    simp [resolveUrl, startsWith]
  unfold install scenarioBuild
  rw [bind_run]
  simp only [skipWaiting]
  rw [bind_run]
  simp only [cachesOpen, cacheAddAll, List.map, newRequest, hurl, fetchAll, hnet, hresp,
    if_true]
  simp only [List.nodup_cons, List.not_mem_nil, not_false_eq_true, List.nodup_nil, and_self,
    if_true, List.foldl]
  rfl

/-- C6. On the first-install path, whatever the content partition held, an
activation that completes without an exception leaves a content partition that
answers every request exactly as staging did and is, entry for entry, the staging
partition. In the scenario (manifest a to h1 and b to h2, core shell a, a browser
that never ran the worker, the network serving a): after install staging holds a,
after activate the content partition holds exactly a with the staged response, the
manifest store holds the manifest and staging is gone. -/
theorem first_install_content :
    (∀ (cfg : Config) (w : World), FirstInstallPath cfg w →
      (activateBody cfg w).1 = .ok () →
      ∃ c, (activate cfg w).2.caches.content = some c ∧
        (∀ r, Cache.matchReq c r = Entries.matchReq (w.caches.entries .TEMP) r) ∧
        c.entries = w.caches.entries .TEMP) ∧
    (∀ (origin : Str) (net : Network) (response : Response),
      net (origin ++ "/a".toList) = .ok response → response.ok = true →
        (install (scenarioBuild origin) net freshWorld).1 = .ok () ∧
        (install (scenarioBuild origin) net freshWorld).2.caches.temp =
          some (Cache.single { url := origin ++ "/a".toList } response) ∧
        (activate (scenarioBuild origin)
            (install (scenarioBuild origin) net freshWorld).2).2.caches =
          { content := some (Cache.single { url := origin ++ "/a".toList } response),
            manifest := some (Cache.single (manifestRequest origin)
              (newResponse (JSON_stringify (scenarioBuild origin).RESOURCES))),
            temp := none }) := by
  constructor
  · intro cfg w hpath hok
    obtain ⟨hc, _⟩ := activate_ok_first hpath hok
    rw [copyStaged_self] at hc
    exact ⟨_, by rw [hc], fun r => rfl, rfl⟩
  · intro origin net response hnet hresp
    have hrun := scenario_install origin net response hnet hresp
    rw [hrun]
    refine ⟨rfl, rfl, ?_⟩
    simp only
    have hb := activateBody_run_first (scenarioBuild origin)
      { freshWorld with
        skippedWaiting := true,
        fetched := [origin ++ "/a".toList],
        caches := { manifest := none, content := none,
                    temp := some (Cache.single { url := origin ++ "/a".toList } response) } }
      rfl rfl
    rw [activate_of_ok (by rw [hb]), hb]
    simp only [CacheStorage.cache, CacheStorage.get, Option.getD_some, Option.getD_none,
      copyStaged_self]
    rfl

/-! ## Idempotence -/

theorem mem_objectKeys {m : Manifest} {k : Str} :
    k ∈ objectKeys m ↔ k ∈ m.map Prod.fst := by
  unfold objectKeys
  rw [List.mem_append, (List.perm_insertionSort _ _).mem_iff, List.mem_filter, List.mem_filter]
  constructor
  · rintro (h | h) <;> exact h.1
  · intro h
    by_cases hi : isArrayIndex k = true
    · exact Or.inl ⟨h, hi⟩
    · exact Or.inr ⟨h, by simpa using hi⟩

theorem lookup_of_mem_fst {m : Manifest} {k : Str} (h : k ∈ m.map Prod.fst) :
    ∃ v, List.lookup k m = some v ∧ (k, v) ∈ m := by
  induction m with
  | nil => simp at h
  | cons e m ih =>
    obtain ⟨k1, v1⟩ := e
    by_cases hk : k = k1
    · subst hk
      exact ⟨v1, by simp [List.lookup], List.mem_cons_self _ _⟩
    · have hmem : k ∈ m.map Prod.fst := by
        simpa [hk] using h
      obtain ⟨v, hv, hin⟩ := ih hmem
      refine ⟨v, ?_, List.mem_cons_of_mem _ hin⟩
      have hbeq : (k == k1) = false := by simpa using hk
      simpa [List.lookup, hbeq] using hv

theorem mem_fst_of_lookup {m : Manifest} {k v : Str} (h : List.lookup k m = some v) :
    k ∈ m.map Prod.fst := by
  induction m with
  | nil => simp at h
  | cons e m ih =>
    obtain ⟨k1, v1⟩ := e
    by_cases hk : k = k1
    · subst hk
      simp
    · have hbeq : (k == k1) = false := by simpa using hk
      have : List.lookup k m = some v := by simpa [List.lookup, hbeq] using h
      have := ih this
      simp only [List.map_cons, List.mem_cons]
      exact Or.inr this

theorem getProp_of_mem_keys {m : Manifest} {k : Str} (h : k ∈ objectKeys m) :
    ∃ v, getProp m k = .str v ∧ (k, v) ∈ m := by
  obtain ⟨v, hv, hin⟩ := lookup_of_mem_fst (mem_objectKeys.1 h)
  exact ⟨v, by simp [getProp, hv], hin⟩

theorem mem_keys_of_getProp {m : Manifest} {k v : Str} (h : getProp m k = .str v) :
    k ∈ objectKeys m := by
  unfold getProp at h
  cases hl : List.lookup k m with
  | none =>
    rw [hl] at h
    by_cases hp : k ∈ protoKeys <;> simp [hp] at h
  | some u => exact mem_objectKeys.2 (mem_fst_of_lookup hl)

theorem getProp_of_not_mem_keys {m : Manifest} {k : Str} (h : k ∉ objectKeys m) :
    getProp m k = if k ∈ protoKeys then .inherited k else .undefined := by
  unfold getProp
  cases hl : List.lookup k m with
  | none => rfl
  | some u => exact absurd (mem_objectKeys.2 (mem_fst_of_lookup hl)) h

theorem truthy_of_mem_keys {cfg : Config} (hsum : ∀ e ∈ cfg.RESOURCES, e.2 ≠ []) {k : Str}
    (h : k ∈ objectKeys cfg.RESOURCES) : truthy (getProp cfg.RESOURCES k) = true := by
  obtain ⟨v, hv, hin⟩ := getProp_of_mem_keys h
  have hne := hsum _ hin
  rw [hv]
  cases v with
  | nil => exact absurd rfl hne
  | cons c cs => rfl

theorem truthy_iff {cfg : Config} (hsum : ∀ e ∈ cfg.RESOURCES, e.2 ≠ []) (k : Str) :
    truthy (getProp cfg.RESOURCES k) = true ↔
      (k ∈ objectKeys cfg.RESOURCES ∨ k ∈ protoKeys) := by
  by_cases hk : k ∈ objectKeys cfg.RESOURCES
  · simp [hk, truthy_of_mem_keys hsum hk]
  · rw [getProp_of_not_mem_keys hk]
    by_cases hp : k ∈ protoKeys <;> simp [hk, hp, truthy]

theorem stale_self {cfg : Config} {k : Str} (h : truthy (getProp cfg.RESOURCES k) = true) :
    stale cfg cfg.RESOURCES k = false := by
  simp [stale, h, looseNe_self]

theorem truthy_of_not_stale {cfg : Config} {oldManifest : Manifest} {k : Str}
    (h : stale cfg oldManifest k = false) : truthy (getProp cfg.RESOURCES k) = true := by
  unfold stale at h
  simp only [Bool.or_eq_false_iff, Bool.not_eq_false'] at h
  exact h.1

theorem cacheKey_resolveUrl (origin : Str) {k : Str}
    (h : k = ['/'] ∨ (k ≠ [] ∧ k.head? ≠ some '/')) :
    cacheKey origin (resolveUrl origin k) = k := by
  rcases h with rfl | ⟨hne, hhead⟩
  · simp [cacheKey, resolveUrl, startsWith, substring]
  · cases k with
    | nil => exact absurd rfl hne
    | cons c cs =>
      have hc : c ≠ '/' := by simpa using hhead
      have hsw : startsWith (c :: cs) ['/'] = false := by
        simp [startsWith, List.isPrefixOf, hc.symm]
      unfold cacheKey resolveUrl substring
      rw [hsw]
      simp only [Bool.false_eq_true, if_false]
      have : List.drop (origin.length + 1) (origin ++ '/' :: c :: cs) = c :: cs := by
        rw [List.drop_append]
        rfl
      rw [this]
      simp

theorem staged_core_fresh {cfg : Config} (hwf : cfg.WF) {r : Request}
    (h : ∃ c ∈ cfg.CORE, r.url = resolveUrl cfg.origin c) :
    stale cfg cfg.RESOURCES (cacheKey cfg.origin r.url) = false := by
  obtain ⟨c, hc, hu⟩ := h
  obtain ⟨hsum, hkeys, _, hcore⟩ := hwf
  have hk := hcore c hc
  rw [hu, cacheKey_resolveUrl cfg.origin (hkeys c hk)]
  exact stale_self (truthy_of_mem_keys hsum hk)

theorem disarm_activate_first {cfg : Config} {w : World} (hm : FirstInstallPath cfg w)
    (hok : (activateBody cfg w).1 = .ok ()) :
    disarm (activate cfg w).2 = { disarm w with
      caches := { manifest := some (Cache.put (w.caches.cache .MANIFEST)
                    (manifestRequest cfg.origin) (newResponse (JSON_stringify cfg.RESOURCES))),
                  temp := none,
                  content := some (copyStaged (w.caches.cache .TEMP)
                    (Cache.keys (w.caches.cache .TEMP)) Cache.empty) },
      claimed := true } := by
  have h1 := activateBody_ok_disarm hok
  rw [activateBody_run_first cfg (disarm w) rfl hm] at h1
  rw [activate_of_ok hok]
  exact (congrArg Prod.snd h1).symm

theorem disarm_activate_upgrade {cfg : Config} {w : World} {stored : Response}
    {oldManifest : Manifest}
    (hm : Cache.matchReq (w.caches.cache .MANIFEST) (manifestRequest cfg.origin) = some stored)
    (hb : stored.body = .json oldManifest)
    (hok : (activateBody cfg w).1 = .ok ()) :
    disarm (activate cfg w).2 = { disarm w with
      caches := { manifest := some (Cache.put (w.caches.cache .MANIFEST)
                    (manifestRequest cfg.origin) (newResponse (JSON_stringify cfg.RESOURCES))),
                  temp := none,
                  content := some (copyStaged (w.caches.cache .TEMP)
                    (Cache.keys (w.caches.cache .TEMP))
                    (sweep cfg oldManifest (Cache.keys (w.caches.cache .CACHE_NAME))
                      (w.caches.cache .CACHE_NAME))) },
      claimed := true,
      deleted := w.deleted ++ (Cache.keys (w.caches.cache .CACHE_NAME)).filter
        (fun k => stale cfg oldManifest (cacheKey cfg.origin k.url)) } := by
  have h1 := activateBody_ok_disarm hok
  rw [activateBody_run_upgrade cfg (disarm w) stored oldManifest rfl hm hb] at h1
  rw [activate_of_ok hok]
  exact (congrArg Prod.snd h1).symm

/-- A second activation, run without injected faults on a state whose staging is
gone, whose manifest store was just written and whose content entries are all
current, changes nothing. -/
theorem activate_settled (cfg : Config) (v : World) (M C : Cache)
    (hf : v.fuse = []) (hcl : v.claimed = true)
    (hc : v.caches = { manifest := some (Cache.put M (manifestRequest cfg.origin)
                          (newResponse (JSON_stringify cfg.RESOURCES))),
                       temp := none, content := some C })
    (hfresh : ∀ e ∈ C.entries, stale cfg cfg.RESOURCES (cacheKey cfg.origin e.1.url) = false) :
    activate cfg v = (.ok (), v) := by
  obtain ⟨caches, fuse, claimed, sw, con, del, fe⟩ := v
  simp only at hf hcl hc
  subst hf hcl hc
  have hm : Cache.matchReq (CacheStorage.cache
      { manifest := some (Cache.put M (manifestRequest cfg.origin)
          (newResponse (JSON_stringify cfg.RESOURCES))),
        temp := none, content := some C } .MANIFEST) (manifestRequest cfg.origin) =
      some (newResponse (JSON_stringify cfg.RESOURCES)) := by
    simp [CacheStorage.cache, CacheStorage.get, Cache.matchReq, put_entries, matchReq_put]
  have hb := activateBody_run_upgrade cfg
    { caches := { manifest := some (Cache.put M (manifestRequest cfg.origin)
                    (newResponse (JSON_stringify cfg.RESOURCES))),
                  temp := none, content := some C },
      fuse := [], claimed := true, skippedWaiting := sw, console := con, deleted := del,
      fetched := fe }
    (newResponse (JSON_stringify cfg.RESOURCES)) cfg.RESOURCES rfl hm rfl
  rw [activate_of_ok (by rw [hb]), hb]
  have hsweep : sweep cfg cfg.RESOURCES (Cache.keys C) C = C := by
    apply Cache.ext
    rw [sweep_keys]
    exact List.filter_eq_self.2 fun e he => by simp [hfresh e he]
  have hdel : (Cache.keys C).filter
      (fun k => stale cfg cfg.RESOURCES (cacheKey cfg.origin k.url)) = [] := by
    rw [List.filter_eq_nil_iff]
    intro k hk
    obtain ⟨e, he, rfl⟩ := List.mem_map.1 hk
    simp [hfresh e he]
  simp only [CacheStorage.cache, CacheStorage.get, Option.getD_some, Option.getD_none,
    cache_put_put, hsweep, hdel, List.append_nil]
  rfl

/-- C4. Let the build satisfy the data-model conditions and let staging hold only
core-shell resources. After an activation that completed without an exception, a
second activation with the same RESOURCES, nothing staged or fetched in between
and no fault injected, passes no request to delete and leaves the whole state, the
content partition and the manifest store in particular, exactly as the first run
left it. -/
theorem activation_idempotent (cfg : Config) (w : World)
    (hwf : cfg.WF) (hstaged : StagedCore cfg w.caches)
    (hok : (activateBody cfg w).1 = .ok ()) :
    (activate cfg (disarm (activate cfg w).2)).1 = .ok () ∧
    deletedDuring (activate cfg) (disarm (activate cfg w).2) = [] ∧
    (activate cfg (disarm (activate cfg w).2)).2.caches.content =
      (activate cfg w).2.caches.content ∧
    (activate cfg (disarm (activate cfg w).2)).2.caches.manifest =
      (activate cfg w).2.caches.manifest ∧
    (activate cfg (disarm (activate cfg w).2)).2 = disarm (activate cfg w).2 := by
  have hstagedFresh : ∀ e : Request × Response, e.1 ∈ Cache.keys (w.caches.cache .TEMP) →
      stale cfg cfg.RESOURCES (cacheKey cfg.origin e.1.url) = false :=
    fun e he => staged_core_fresh hwf (hstaged e.1 he)
  have hsettled : activate cfg (disarm (activate cfg w).2) = (.ok (), disarm (activate cfg w).2) := by
    rcases hm : Cache.matchReq (w.caches.cache .MANIFEST) (manifestRequest cfg.origin)
      with _ | stored
    · have hw := disarm_activate_first hm hok
      refine activate_settled cfg _ (w.caches.cache .MANIFEST)
        (copyStaged (w.caches.cache .TEMP) (Cache.keys (w.caches.cache .TEMP)) Cache.empty)
        rfl (by rw [hw]) (by rw [hw]) ?_
      intro e he
      rcases mem_copyStaged he with h1 | h1
      · simp [Cache.empty] at h1
      · exact hstagedFresh e h1.1
    · obtain ⟨oldManifest, hb⟩ := stored_json_of_ok hm hok
      have hw := disarm_activate_upgrade hm hb hok
      refine activate_settled cfg _ (w.caches.cache .MANIFEST)
        (copyStaged (w.caches.cache .TEMP) (Cache.keys (w.caches.cache .TEMP))
          (sweep cfg oldManifest (Cache.keys (w.caches.cache .CACHE_NAME))
            (w.caches.cache .CACHE_NAME)))
        rfl (by rw [hw]) (by rw [hw]) ?_
      intro e he
      rcases mem_copyStaged he with h1 | h1
      · rw [sweep_keys, List.mem_filter] at h1
        have hns : stale cfg oldManifest (cacheKey cfg.origin e.1.url) = false := by
          simpa using h1.2
        exact stale_self (truthy_of_not_stale hns)
      · exact hstagedFresh e h1.1
  rw [hsettled]
  refine ⟨rfl, ?_, rfl, rfl, rfl⟩
  apply deletedDuring_eq
  rw [hsettled]
  simp

/-! ## Logical keys of the fetch handler -/

theorem isPrefixOf_append_left (a b c : Str) :
    List.isPrefixOf (a ++ b) (a ++ c) = List.isPrefixOf b c := by
  induction a with
  | nil => rfl
  | cons x a ih => simp [List.isPrefixOf, ih]

theorem isPrefixOf_self_append (t s : Str) : List.isPrefixOf t (t ++ s) = true := by
  induction t with
  | nil => simp [List.isPrefixOf]
  | cons x t ih => simp [List.isPrefixOf, ih]

theorem substring_origin (origin rest : Str) :
    substring (origin ++ '/' :: rest) (origin.length + 1) = rest := by
  unfold substring
  rw [List.drop_append]
  rfl

theorem indexOfFrom_shift (t s : Str) (i j : Nat) :
    indexOfFrom t s i = -1 ↔ indexOfFrom t s j = -1 := by
  induction s generalizing i j with
  | nil =>
    unfold indexOfFrom
    by_cases h : t.isPrefixOf [] = true
    · simp only [h, if_true]
      constructor <;> intro h1 <;> omega
    · simp [h]
  | cons c cs ih =>
    unfold indexOfFrom
    by_cases h : t.isPrefixOf (c :: cs) = true
    · simp only [h, if_true]
      constructor <;> intro h1 <;> omega
    · simp only [h]
      exact ih (i + 1) (j + 1)

theorem indexOfFrom_occurs (t p s : Str) (i : Nat) : indexOfFrom t (p ++ (t ++ s)) i ≠ -1 := by
  induction p generalizing i with
  | nil =>
    have h := isPrefixOf_self_append t s
    cases hts : t ++ s with
    | nil =>
      rw [hts] at h
      simp only [List.nil_append, indexOfFrom, h, if_true]
      omega
    | cons c cs =>
      rw [hts] at h
      simp only [List.nil_append, indexOfFrom, h, if_true]
      omega
  | cons c cs ih =>
    rw [List.cons_append]
    unfold indexOfFrom
    by_cases h : t.isPrefixOf (c :: (cs ++ (t ++ s))) = true
    · simp only [h, if_true]
      omega
    · simp only [h]
      exact ih (i + 1)

/-- The separator "?v=" does not overlap itself: when it does not occur in p, its
first occurrence in p followed by "?v=" and s starts right after p. -/
theorem splitHead_version (p s : Str) (hp : indexOf p "?v=".toList = -1) :
    splitHead "?v=".toList (p ++ ("?v=".toList ++ s)) = p := by
  induction p with
  | nil =>
    show splitHead ['?', 'v', '='] ('?' :: 'v' :: '=' :: s) = []
    simp [splitHead, List.isPrefixOf]
  | cons c cs ih =>
    unfold indexOf indexOfFrom at hp
    by_cases h : List.isPrefixOf "?v=".toList (c :: cs) = true
    · simp only [h, if_true] at hp
      omega
    · simp only [h] at hp
      have hcs : indexOf cs "?v=".toList = -1 := (indexOfFrom_shift _ cs _ 0).1 hp
      have hnot : List.isPrefixOf "?v=".toList (c :: (cs ++ ("?v=".toList ++ s))) = false := by
        have h0 : ¬ List.isPrefixOf ['?', 'v', '='] (c :: cs) = true := h
        have h1 : List.isPrefixOf ['?', 'v', '='] (c :: cs) = false := Bool.eq_false_iff.2 h0
        show List.isPrefixOf ['?', 'v', '='] (c :: (cs ++ ('?' :: 'v' :: '=' :: s))) = false
        rcases cs with _ | ⟨d, ds⟩
        · simp [List.isPrefixOf]
        · rcases ds with _ | ⟨e, es⟩
          · simp [List.isPrefixOf]
          · simp only [List.isPrefixOf, List.cons_append] at h1 ⊢
            exact h1
      rw [List.cons_append, splitHead, hnot]
      simp only [Bool.false_eq_true, if_false]
      rw [ih hcs]

theorem startsWith_fragment (origin p s : Str) :
    startsWith (origin ++ '/' :: (p ++ ("?v=".toList ++ s))) (origin ++ "/#".toList) =
      startsWith (origin ++ '/' :: p) (origin ++ "/#".toList) := by
  unfold startsWith
  rw [isPrefixOf_append_left, isPrefixOf_append_left]
  cases p with
  | nil =>
    show List.isPrefixOf ['/', '#'] ('/' :: '?' :: 'v' :: '=' :: s) = List.isPrefixOf ['/', '#'] ['/']
    simp [List.isPrefixOf]
  | cons c cs =>
    show List.isPrefixOf ['/', '#'] ('/' :: c :: (cs ++ _)) = List.isPrefixOf ['/', '#'] ('/' :: c :: cs)
    simp [List.isPrefixOf]

theorem origin_ne_longer (origin rest : Str) : origin ++ '/' :: rest ≠ origin := by
  intro h
  have := congrArg List.length h
  simp at this

theorem fetchKey_version (origin p s : Str) (hp : indexOf p "?v=".toList = -1) :
    fetchKey origin (origin ++ '/' :: (p ++ ("?v=".toList ++ s))) =
      fetchKey origin (origin ++ '/' :: p) := by
  have h1 : indexOf (p ++ ("?v=".toList ++ s)) "?v=".toList ≠ -1 := indexOfFrom_occurs _ p s 0
  have h2 : ¬ indexOf p "?v=".toList ≠ -1 := fun h => h hp
  simp only [fetchKey, substring_origin]
  rw [if_pos h1, if_neg h2, splitHead_version p s hp, startsWith_fragment]
  simp only [origin_ne_longer, false_or]

/-! ## The fetch handler -/

theorem cache_update_open (s : CacheStorage) (name : CacheName) (f : Cache → Cache) :
    ((s.openCache name).update name f).cache name = f (s.cache name) := by
  obtain ⟨m, t, c⟩ := s
  cases name <;> [cases m; cases t; cases c] <;> rfl

theorem cache_open (s : CacheStorage) (name : CacheName) :
    (s.openCache name).cache name = s.cache name := by
  obtain ⟨m, t, c⟩ := s
  cases name <;> [cases m; cases t; cases c] <;> rfl

theorem onlineFirst_run_ok (net : Network) (request : Request) (w : World)
    (response : Response) (h : net request.url = .ok response) :
    onlineFirst net request w = (.ok response, { w with
      fetched := w.fetched ++ [request.url],
      caches := (w.caches.openCache .CACHE_NAME).update .CACHE_NAME
        (fun c => Cache.put c request response) }) := by
  unfold onlineFirst tryCatch
  simp only [bind_run, fetch, h, cachesOpen, cachePut, pure_run]

theorem onlineFirst_run_error (net : Network) (request : Request) (w : World)
    (error : Err) (h : net request.url = .error error) :
    onlineFirst net request w =
      (match Cache.matchReq (w.caches.cache .CACHE_NAME) request with
        | some response => .ok response
        | none => .error error,
       { w with fetched := w.fetched ++ [request.url],
                caches := w.caches.openCache .CACHE_NAME }) := by
  unfold onlineFirst tryCatch
  simp only [bind_run, fetch, h, cachesOpen, cacheMatch, cache_open]
  cases Cache.matchReq (w.caches.cache .CACHE_NAME) request <;> rfl

/-- The routing decision in terms of the keys of RESOURCES: the read RESOURCES[key]
is truthy for the keys of RESOURCES and for the names of the inherited members. -/
theorem route_eq (cfg : Config) (request : Request)
    (hsum : ∀ e ∈ cfg.RESOURCES, e.2 ≠ []) :
    route cfg request =
      if request.method = "GET".toList ∧
          (fetchKey cfg.origin request.url ∈ objectKeys cfg.RESOURCES ∨
            fetchKey cfg.origin request.url ∈ protoKeys) then
        (if fetchKey cfg.origin request.url = ['/'] then some .onlineFirst
         else some .cacheFirst)
      else none := by
  unfold route
  by_cases hm : request.method = "GET".toList
  · rw [if_neg (fun h : request.method ≠ "GET".toList => h hm)]
    by_cases hk : fetchKey cfg.origin request.url ∈ objectKeys cfg.RESOURCES ∨
        fetchKey cfg.origin request.url ∈ protoKeys
    · have ht := (truthy_iff hsum _).2 hk
      simp only [ht, Bool.not_true, Bool.false_eq_true, if_false]
      rw [if_pos (show request.method = "GET".toList ∧
        (fetchKey cfg.origin request.url ∈ objectKeys cfg.RESOURCES ∨
          fetchKey cfg.origin request.url ∈ protoKeys) from ⟨hm, hk⟩)]
    · have ht : truthy (getProp cfg.RESOURCES (fetchKey cfg.origin request.url)) = false := by
        rw [Bool.eq_false_iff]
        exact fun h => hk ((truthy_iff hsum _).1 h)
      simp only [ht, Bool.not_false, if_true]
      rw [if_neg (show ¬ (request.method = "GET".toList ∧
        (fetchKey cfg.origin request.url ∈ objectKeys cfg.RESOURCES ∨
          fetchKey cfg.origin request.url ∈ protoKeys)) from fun h => hk h.2)]
  · rw [if_pos (show request.method ≠ "GET".toList from hm),
      if_neg (show ¬ (request.method = "GET".toList ∧
        (fetchKey cfg.origin request.url ∈ objectKeys cfg.RESOURCES ∨
          fetchKey cfg.origin request.url ∈ protoKeys)) from fun h => hm h.1)]

/-- C7, as the code has it. For every origin, every path p in which "?v=" does not
occur and every suffix s, the fetch handler computes the same logical key for
origin/p?v=s as for origin/p and, for the same method, takes the same routing
decision: no interception, online-first or cache-first. -/
theorem version_suffix_same_route (cfg : Config) (p s method : Str)
    (hp : indexOf p "?v=".toList = -1) :
    fetchKey cfg.origin (cfg.origin ++ '/' :: (p ++ ("?v=".toList ++ s))) =
      fetchKey cfg.origin (cfg.origin ++ '/' :: p) ∧
    route cfg { url := cfg.origin ++ '/' :: (p ++ ("?v=".toList ++ s)), method := method } =
      route cfg { url := cfg.origin ++ '/' :: p, method := method } := by
  have hk := fetchKey_version cfg.origin p s hp
  refine ⟨hk, ?_⟩
  unfold route
  simp only [hk]

/-- C7, refuted as stated. The manifest lists app, the content partition holds
https://x/app and the network serves one and the same live response for every URL:
the request for https://x/app?v=3 is answered from the network and stored under its
own URL, the request for https://x/app is answered from the content partition. -/
theorem version_suffix_served_differently :
    (onFetch versionedBuild liveNet { url := "https://x/app?v=3".toList } versionedWorld).1
      = some (.ok liveApp) ∧
    (onFetch versionedBuild liveNet { url := "https://x/app".toList } versionedWorld).1
      = some (.ok cachedApp) ∧
    (onFetch versionedBuild liveNet { url := "https://x/app?v=3".toList } versionedWorld).1
      ≠ (onFetch versionedBuild liveNet { url := "https://x/app".toList } versionedWorld).1 ∧
    (onFetch versionedBuild liveNet
        { url := "https://x/app?v=3".toList } versionedWorld).2.caches.entries .CACHE_NAME
      = [({ url := "https://x/app".toList }, cachedApp),
         ({ url := "https://x/app?v=3".toList }, liveApp)] ∧
    ((onFetch versionedBuild liveNet
        { url := "https://x/app?v=3".toList } versionedWorld).2.caches.content).isSome = true := by
  have h1 : (onFetch versionedBuild liveNet
      { url := "https://x/app?v=3".toList } versionedWorld).1 = some (.ok liveApp) := by rfl
  have h2 : (onFetch versionedBuild liveNet
      { url := "https://x/app".toList } versionedWorld).1 = some (.ok cachedApp) := by rfl
  refine ⟨h1, h2, ?_, by decide, by decide⟩
  rw [h1, h2]
  intro h
  have hne : liveApp ≠ cachedApp := by decide
  exact hne (Except.ok.inj (Option.some.inj h))

/-- C8, evaluated at the failing input. In this build, on origin https://x, the
logical key of a GET request for https://x/toString is toString, which is no key
of RESOURCES; the read RESOURCES[key] finds the member every object inherits under
that name, the test of line 169 lets the request through, and the handler calls
respondWith with the cache-first promise: with nothing cached it fetches the URL,
answers with the live response and stores it in the content partition. -/
theorem fetch_intercepts_inherited_key :
    fetchKey (thisBuild "https://x".toList).origin "https://x/toString".toList
      = "toString".toList ∧
    "toString".toList ∉ objectKeys (thisBuild "https://x".toList).RESOURCES ∧
    getProp (thisBuild "https://x".toList).RESOURCES "toString".toList
      = .inherited "toString".toList ∧
    route (thisBuild "https://x".toList) { url := "https://x/toString".toList }
      = some .cacheFirst ∧
    (onFetch (thisBuild "https://x".toList) liveNet
        { url := "https://x/toString".toList } freshWorld).1 = some (.ok liveApp) ∧
    (onFetch (thisBuild "https://x".toList) liveNet
        { url := "https://x/toString".toList } freshWorld).2.fetched
      = ["https://x/toString".toList] ∧
    (onFetch (thisBuild "https://x".toList) liveNet
        { url := "https://x/toString".toList } freshWorld).2.caches.entries .CACHE_NAME
      = [({ url := "https://x/toString".toList }, liveApp)] := by
  refine ⟨by decide, by decide, by decide, by decide, by rfl, by decide, by decide⟩

/-- C9. For a GET request whose logical key is "/", in a build that lists "/" with
non-empty checksums: when the network fetch succeeds the handler answers with the
live response and the content partition then holds that response under the request;
when the fetch fails and the content partition has an entry for the request, the
handler answers with that entry; when the fetch fails and there is no such entry,
the promise is rejected with the network error itself. An entry for the request is
one that cache.match finds, which compares URLs without their fragments. -/
theorem online_first_root (cfg : Config) (net : Network) (request : Request) (w : World)
    (hsum : ∀ e ∈ cfg.RESOURCES, e.2 ≠ [])
    (hget : request.method = "GET".toList)
    (hkey : fetchKey cfg.origin request.url = ['/'])
    (hroot : ['/'] ∈ objectKeys cfg.RESOURCES) :
    (∀ response, net request.url = .ok response →
      (onFetch cfg net request w).1 = some (.ok response) ∧
      Cache.matchReq ((onFetch cfg net request w).2.caches.cache .CACHE_NAME) request
        = some response ∧
      (request, response) ∈ (onFetch cfg net request w).2.caches.entries .CACHE_NAME) ∧
    (∀ error cached, net request.url = .error error →
      Cache.matchReq (w.caches.cache .CACHE_NAME) request = some cached →
      (onFetch cfg net request w).1 = some (.ok cached)) ∧
    (∀ error, net request.url = .error error →
      Cache.matchReq (w.caches.cache .CACHE_NAME) request = none →
      (onFetch cfg net request w).1 = some (.error error)) ∧
    (∀ error, net request.url = .error error →
      (∀ e ∈ w.caches.entries .CACHE_NAME, e.1.target ≠ request.target) →
      (onFetch cfg net request w).1 = some (.error error)) := by
  have hr : onFetch cfg net request w =
      (some (onlineFirst net request w).1, (onlineFirst net request w).2) := by
    unfold onFetch
    rw [route_eq cfg request hsum, if_pos ⟨hget, Or.inl (by rw [hkey]; exact hroot)⟩,
      if_pos hkey]
  rw [hr]
  refine ⟨?_, ?_, ?_, ?_⟩
  · intro response hnet
    rw [onlineFirst_run_ok net request w response hnet]
    refine ⟨rfl, ?_, ?_⟩
    · simp only [cache_update_open, Cache.matchReq, put_entries, matchReq_put, if_true]
    · simp only [CacheStorage.entries, cache_update_open, put_entries]
      exact mem_put.2 (Or.inr rfl)
  · intro error cached hnet hc
    rw [onlineFirst_run_error net request w error hnet, hc]
  · intro error hnet hc
    rw [onlineFirst_run_error net request w error hnet, hc]
  · intro error hnet hc
    have hnone : Cache.matchReq (w.caches.cache .CACHE_NAME) request = none := by
      unfold Cache.matchReq
      rw [matchReq_none_iff]
      exact hc
    rw [onlineFirst_run_error net request w error hnet, hnone]

/-! ## The bulk download -/

theorem stripFragment_of_not_mem {u : Str} (h : '#' ∉ u) : stripFragment u = u := by
  unfold stripFragment
  rw [List.takeWhile_eq_self_iff]
  intro x hx
  have : x ≠ '#' := fun hxe => h (hxe ▸ hx)
  simpa using this

theorem stripFragment_cases (u : Str) :
    stripFragment u = u ∨ ∃ rest, u = stripFragment u ++ '#' :: rest := by
  induction u with
  | nil => exact Or.inl rfl
  | cons c cs ih =>
    by_cases hc : c = '#'
    · subst hc
      exact Or.inr ⟨cs, by simp [stripFragment]⟩
    · have hs : stripFragment (c :: cs) = c :: stripFragment cs := by
        simp [stripFragment, List.takeWhile_cons, hc]
      rw [hs]
      rcases ih with h | ⟨rest, h⟩
      · exact Or.inl (by rw [h])
      · exact Or.inr ⟨rest, by rw [List.cons_append, ← h]⟩

theorem resolveUrl_shape (origin : Str) {k : Str}
    (h : k = ['/'] ∨ (k ≠ [] ∧ k.head? ≠ some '/')) :
    ∃ tail, resolveUrl origin k = origin ++ '/' :: tail ∧ (∀ c ∈ tail, c ∈ k) := by
  rcases h with rfl | ⟨hne, hhead⟩
  · exact ⟨[], by simp [resolveUrl, startsWith], by simp⟩
  · cases k with
    | nil => exact absurd rfl hne
    | cons c cs =>
      have hc : c ≠ '/' := by simpa using hhead
      have hsw : startsWith (c :: cs) ['/'] = false := by
        simp [startsWith, List.isPrefixOf, hc.symm]
      exact ⟨c :: cs, by simp [resolveUrl, hsw], fun _ h => h⟩

theorem not_mem_resolveUrl {origin k : Str} (ho : '#' ∉ origin) (hk : '#' ∉ k) :
    '#' ∉ resolveUrl origin k := by
  unfold resolveUrl
  split <;> simp [ho, hk]

/-- The request downloadOffline makes for a manifest key is matched by its whole
URL, which has no fragment. -/
theorem target_newRequest {cfg : Config} (hplain : cfg.PlainKeys) {k : Str}
    (hk : k ∈ objectKeys cfg.RESOURCES) :
    (newRequest cfg.origin k).target = resolveUrl cfg.origin k :=
  stripFragment_of_not_mem (not_mem_resolveUrl hplain.1 (hplain.2 k hk).1)

/-- An entry whose logical key is a manifest key is matched by the request made
for a manifest key only when the two keys are the same. -/
theorem key_eq_of_target_eq {cfg : Config} (hwf : cfg.WF) (hplain : cfg.PlainKeys)
    {url k j : Str} (hk : k ∈ objectKeys cfg.RESOURCES) (hj : j ∈ objectKeys cfg.RESOURCES)
    (hkey : cacheKey cfg.origin url = k)
    (ht : stripFragment url = resolveUrl cfg.origin j) : k = j := by
  rcases stripFragment_cases url with h | ⟨rest, h⟩
  · rw [h] at ht
    rw [← hkey, ht]
    exact cacheKey_resolveUrl cfg.origin (hwf.2.1 j hj)
  · exfalso
    obtain ⟨tail, hshape, _⟩ := resolveUrl_shape cfg.origin (hwf.2.1 j hj)
    rw [ht, hshape] at h
    have hsub : substring url (cfg.origin.length + 1) = tail ++ '#' :: rest := by
      rw [h, List.append_assoc, List.cons_append]
      exact substring_origin cfg.origin (tail ++ '#' :: rest)
    have hmem : '#' ∈ k := by
      rw [← hkey]
      unfold cacheKey
      simp only [hsub]
      rw [if_neg (by simp)]
      simp
    exact (hplain.2 k hk).1 hmem

theorem fetchAll_ok_map {net : Network} {rs : List Request} {es : List (Request × Response)}
    (h : fetchAll net rs = .ok es) : es.map Prod.fst = rs := by
  induction rs generalizing es with
  | nil =>
    simp only [fetchAll, Except.ok.injEq] at h
    subst h
    rfl
  | cons r rs ih =>
    unfold fetchAll at h
    cases hn : net r.url with
    | error e => simp [hn] at h
    | ok response =>
      rw [hn] at h
      simp only at h
      by_cases hok : response.ok = true
      · rw [if_pos hok] at h
        cases hf : fetchAll net rs with
        | error e => simp [hf] at h
        | ok es1 =>
          rw [hf] at h
          simp only [Except.ok.injEq] at h
          subst h
          simp [ih hf]
      · rw [if_neg hok] at h
        simp at h

/-- The batch addAll collects holds, for every request, the response the network
gave for it. -/
theorem fetchAll_mem {net : Network} {rs : List Request} {es : List (Request × Response)}
    (h : fetchAll net rs = .ok es) {r : Request} {response : Response}
    (hr : r ∈ rs) (hn : net r.url = .ok response) : (r, response) ∈ es := by
  induction rs generalizing es with
  | nil => simp at hr
  | cons r1 rs ih =>
    unfold fetchAll at h
    cases hn1 : net r1.url with
    | error e => simp [hn1] at h
    | ok response1 =>
      rw [hn1] at h
      simp only at h
      by_cases hok : response1.ok = true
      · rw [if_pos hok] at h
        cases hf : fetchAll net rs with
        | error e => simp [hf] at h
        | ok es1 =>
          rw [hf] at h
          simp only [Except.ok.injEq] at h
          subst h
          rcases List.mem_cons.1 hr with hrr | hrr
          · subst hrr
            rw [hn1] at hn
            have : response1 = response := Except.ok.inj hn
            subst this
            exact List.mem_cons_self _ _
          · exact List.mem_cons_of_mem _ (ih hf hrr)
      · rw [if_neg hok] at h
        simp at h

/-- The fetches of addAll all succeed exactly when the network serves every request
with an ok response. -/
theorem fetchAll_ok_iff (net : Network) (rs : List Request) :
    (∃ es, fetchAll net rs = .ok es) ↔
      ∀ r ∈ rs, ∃ response, net r.url = .ok response ∧ response.ok = true := by
  induction rs with
  | nil => simp [fetchAll]
  | cons r rs ih =>
    constructor
    · rintro ⟨es, h⟩
      unfold fetchAll at h
      cases hn : net r.url with
      | error e => simp [hn] at h
      | ok response =>
        rw [hn] at h
        simp only at h
        by_cases hok : response.ok = true
        · rw [if_pos hok] at h
          cases hf : fetchAll net rs with
          | error e => simp [hf] at h
          | ok es1 =>
            intro r1 hr1
            rcases List.mem_cons.1 hr1 with hrr | hrr
            · subst hrr
              exact ⟨response, hn, hok⟩
            · exact ih.1 ⟨es1, hf⟩ r1 hrr
        · rw [if_neg hok] at h
          simp at h
    · intro h
      obtain ⟨response, hn, hok⟩ := h r (List.mem_cons_self _ _)
      obtain ⟨es1, hf⟩ := ih.2 (fun r1 hr1 => h r1 (List.mem_cons_of_mem _ hr1))
      exact ⟨(r, response) :: es1, by simp [fetchAll, hn, hok, hf]⟩

theorem cacheAddAll_fetched (name : CacheName) (net : Network) (rs : List Request) (w : World) :
    (cacheAddAll name net rs w).2.fetched = w.fetched ++ rs.map Request.url := by
  unfold cacheAddAll
  simp only
  split
  · rfl
  · split <;> rfl

theorem cacheAddAll_ok_iff (name : CacheName) (net : Network) (rs : List Request) (w : World) :
    (cacheAddAll name net rs w).1 = .ok () ↔
      ((∃ es, fetchAll net rs = .ok es) ∧ (rs.map Request.target).Nodup) := by
  unfold cacheAddAll
  simp only
  cases hf : fetchAll net rs with
  | error e => simp
  | ok es =>
    by_cases hn : (rs.map Request.target).Nodup
    · simp [hn]
    · simp [hn]

theorem cacheAddAll_caches_ok {name : CacheName} {net : Network} {rs : List Request}
    {w : World} {es : List (Request × Response)}
    (hf : fetchAll net rs = .ok es) (hn : (rs.map Request.target).Nodup) :
    (cacheAddAll name net rs w).2.caches =
      w.caches.update name (fun c => es.foldl (fun acc e => Cache.put acc e.1 e.2) c) := by
  unfold cacheAddAll
  simp only [hf, if_pos hn]

theorem cacheAddAll_caches_fail {name : CacheName} {net : Network} {rs : List Request}
    {w : World} (h : (cacheAddAll name net rs w).1 ≠ .ok ()) :
    (cacheAddAll name net rs w).2.caches = w.caches := by
  unfold cacheAddAll at h ⊢
  simp only at h ⊢
  cases hf : fetchAll net rs with
  | error e => rfl
  | ok es =>
    rw [hf] at h
    simp only at h ⊢
    by_cases hn : (rs.map Request.target).Nodup
    · rw [if_pos hn] at h
      exact absurd rfl h
    · rw [if_neg hn]

/-- An entry that no request of the batch matches is still there after the batch
has been stored. -/
theorem mem_foldl_put_of_mem (es : List (Request × Response)) (c : Cache)
    {e : Request × Response} (he : e ∈ c.entries)
    (hne : ∀ d ∈ es, e.1.target ≠ d.1.target) :
    e ∈ (es.foldl (fun acc d => Cache.put acc d.1 d.2) c).entries := by
  induction es generalizing c with
  | nil => exact he
  | cons d es ih =>
    rw [List.foldl_cons]
    apply ih
    · rw [put_entries]
      exact mem_put.2 (Or.inl ⟨he, hne d (List.mem_cons_self _ _)⟩)
    · exact fun d1 hd1 => hne d1 (List.mem_cons_of_mem _ hd1)

/-- Every entry of a batch whose requests are pairwise distinct is in the cache
after the batch has been stored. -/
theorem mem_foldl_put (es : List (Request × Response)) (c : Cache)
    (hd : (es.map (fun d => d.1.target)).Nodup) {e : Request × Response} (he : e ∈ es) :
    e ∈ (es.foldl (fun acc d => Cache.put acc d.1 d.2) c).entries := by
  induction es generalizing c with
  | nil => simp at he
  | cons d es ih =>
    rw [List.foldl_cons]
    rw [List.map_cons, List.nodup_cons] at hd
    rcases List.mem_cons.1 he with hed | hed
    · subst hed
      apply mem_foldl_put_of_mem
      · rw [put_entries]
        exact mem_put.2 (Or.inr rfl)
      · intro d1 hd1 heq
        exact hd.1 (List.mem_map.2 ⟨d1, hd1, heq.symm⟩)
    · exact ih _ hd.2 hed

theorem mem_missingResources {cfg : Config} (hplain : cfg.PlainKeys)
    {keys : List Request} {k : Str} :
    k ∈ missingResources cfg keys ↔
      (k ∈ objectKeys cfg.RESOURCES ∧ ∀ r ∈ keys, cacheKey cfg.origin r.url ≠ k) := by
  unfold missingResources currentContentHas
  simp only [List.mem_filter]
  have hc : ∀ l : List Str, (l.contains k = true ↔ k ∈ l) := fun l => by simp
  constructor
  · rintro ⟨h1, h2⟩
    refine ⟨h1, fun r hr hk => ?_⟩
    have hmem : k ∈ keys.map (fun request => cacheKey cfg.origin request.url) :=
      List.mem_map.2 ⟨r, hr, hk⟩
    have hcon := (hc _).2 hmem
    rw [hcon] at h2
    simp at h2
  · rintro ⟨h1, h2⟩
    refine ⟨h1, ?_⟩
    have hcon : (keys.map (fun request => cacheKey cfg.origin request.url)).contains k
        = false := by
      rw [Bool.eq_false_iff]
      intro h
      obtain ⟨r, hr, hk⟩ := List.mem_map.1 ((hc _).1 h)
      exact h2 r hr hk
    have hproto : protoKeys.contains k = false := by
      rw [Bool.eq_false_iff]
      intro h
      exact (hplain.2 k h1).2 ((hc _).1 h)
    rw [hcon, hproto]
    rfl

theorem missing_subset {cfg : Config} {keys : List Request} {k : Str}
    (h : k ∈ missingResources cfg keys) : k ∈ objectKeys cfg.RESOURCES :=
  (List.mem_filter.1 h).1

/-- The requests of the batch are pairwise distinct for the Cache API. -/
theorem missing_targets_nodup {cfg : Config} (hwf : cfg.WF) (hplain : cfg.PlainKeys)
    (keys : List Request) :
    (((missingResources cfg keys).map (newRequest cfg.origin)).map Request.target).Nodup := by
  rw [List.map_map]
  have hnd : (missingResources cfg keys).Nodup := List.Nodup.filter _ hwf.2.2.1
  refine List.Nodup.map_on ?_ hnd
  intro k hk j hj heq
  have hk1 := missing_subset hk
  have hj1 := missing_subset hj
  simp only [Function.comp] at heq
  rw [target_newRequest hplain hk1, target_newRequest hplain hj1] at heq
  rw [← cacheKey_resolveUrl cfg.origin (hwf.2.1 k hk1),
    ← cacheKey_resolveUrl cfg.origin (hwf.2.1 j hj1), heq]

theorem downloadOffline_run (cfg : Config) (net : Network) (w : World) :
    downloadOffline cfg net w =
      cacheAddAll .CACHE_NAME net
        ((missingResources cfg (Cache.keys (w.caches.cache .CACHE_NAME))).map
          (newRequest cfg.origin))
        { w with caches := w.caches.openCache .CACHE_NAME } := by
  unfold downloadOffline
  simp only [bind_run, cachesOpen, cacheKeys, cache_open]

/-- C10. The message downloadOffline runs downloadOffline. In a build that meets
the data-model conditions, whose keys have no fragment sign and are no names of
inherited members, and for every state: the URLs requested, in one addAll batch,
are exactly those of the keys of RESOURCES that are not the logical key of any
request of the content partition, so no key already present is fetched and no
missing key is left out. The run succeeds exactly when the network serves every
missing key with an ok response. After a successful run the content partition
holds, under the request of every missing key, the response the network gave for
it, still holds every entry it had for a manifest key, and so has a request with
logical key k for every key k of RESOURCES. A run that fails stores nothing. -/
theorem download_offline_missing (cfg : Config) (net : Network) (w : World)
    (hwf : cfg.WF) (hplain : cfg.PlainKeys) :
    onMessage cfg net "downloadOffline".toList w = downloadOffline cfg net w ∧
    (downloadOffline cfg net w).2.fetched = w.fetched ++
      (missingResources cfg (Cache.keys (w.caches.cache .CACHE_NAME))).map
        (resolveUrl cfg.origin) ∧
    (∀ k, k ∈ missingResources cfg (Cache.keys (w.caches.cache .CACHE_NAME)) ↔
      (k ∈ objectKeys cfg.RESOURCES ∧
        ∀ r ∈ Cache.keys (w.caches.cache .CACHE_NAME), cacheKey cfg.origin r.url ≠ k)) ∧
    ((downloadOffline cfg net w).1 = .ok () ↔
      ∀ k ∈ missingResources cfg (Cache.keys (w.caches.cache .CACHE_NAME)),
        ∃ response, net (resolveUrl cfg.origin k) = .ok response ∧ response.ok = true) ∧
    ((downloadOffline cfg net w).1 = .ok () →
      (∀ k ∈ missingResources cfg (Cache.keys (w.caches.cache .CACHE_NAME)),
        ∀ response, net (resolveUrl cfg.origin k) = .ok response →
          (newRequest cfg.origin k, response) ∈
            (downloadOffline cfg net w).2.caches.entries .CACHE_NAME) ∧
      (∀ e ∈ w.caches.entries .CACHE_NAME,
        cacheKey cfg.origin e.1.url ∈ objectKeys cfg.RESOURCES →
          e ∈ (downloadOffline cfg net w).2.caches.entries .CACHE_NAME) ∧
      (∀ k ∈ objectKeys cfg.RESOURCES,
        ∃ r ∈ Cache.keys ((downloadOffline cfg net w).2.caches.cache .CACHE_NAME),
          cacheKey cfg.origin r.url = k)) ∧
    ((downloadOffline cfg net w).1 ≠ .ok () →
      (downloadOffline cfg net w).2.caches = w.caches.openCache .CACHE_NAME) := by
  have hnodup := missing_targets_nodup hwf hplain (Cache.keys (w.caches.cache .CACHE_NAME))
  have hiff : (downloadOffline cfg net w).1 = .ok () ↔
      ∀ k ∈ missingResources cfg (Cache.keys (w.caches.cache .CACHE_NAME)),
        ∃ response, net (resolveUrl cfg.origin k) = .ok response ∧ response.ok = true := by
    rw [downloadOffline_run, cacheAddAll_ok_iff, fetchAll_ok_iff]
    constructor
    · rintro ⟨h, _⟩ k hk
      exact h (newRequest cfg.origin k) (List.mem_map.2 ⟨k, hk, rfl⟩)
    · intro h
      refine ⟨?_, hnodup⟩
      intro r hr
      obtain ⟨k, hk, rfl⟩ := List.mem_map.1 hr
      exact h k hk
  have hkept : ∀ (es : List (Request × Response)),
      es.map Prod.fst = (missingResources cfg (Cache.keys (w.caches.cache .CACHE_NAME))).map
        (newRequest cfg.origin) →
      ∀ e ∈ w.caches.entries .CACHE_NAME,
        cacheKey cfg.origin e.1.url ∈ objectKeys cfg.RESOURCES →
        e ∈ (es.foldl (fun acc d => Cache.put acc d.1 d.2)
          (w.caches.cache .CACHE_NAME)).entries := by
    intro es hes e he hkey
    apply mem_foldl_put_of_mem es _ he
    intro d hd heq
    have hd1 : d.1 ∈ (missingResources cfg (Cache.keys (w.caches.cache .CACHE_NAME))).map
        (newRequest cfg.origin) := by
      rw [← hes]
      exact List.mem_map.2 ⟨d, hd, rfl⟩
    obtain ⟨j, hj, hdj⟩ := List.mem_map.1 hd1
    have hj1 := missing_subset hj
    have htj : stripFragment e.1.url = resolveUrl cfg.origin j := by
      have h1 : e.1.target = (newRequest cfg.origin j).target := by rw [heq, hdj]
      rw [target_newRequest hplain hj1] at h1
      exact h1
    have hkj := key_eq_of_target_eq hwf hplain hkey hj1 rfl htj
    exact ((mem_missingResources hplain).1 hj).2 e.1 (List.mem_map.2 ⟨e, he, rfl⟩) hkj
  refine ⟨?_, ?_, fun k => mem_missingResources hplain, hiff, ?_, ?_⟩
  · unfold onMessage
    rw [if_neg (by decide), if_pos rfl]
  · rw [downloadOffline_run, cacheAddAll_fetched]
    simp [newRequest, Function.comp_def]
  · intro hok
    have hok1 := hok
    rw [downloadOffline_run, cacheAddAll_ok_iff] at hok1
    obtain ⟨⟨es, hf⟩, hn⟩ := hok1
    have hes := fetchAll_ok_map hf
    have hcaches : (downloadOffline cfg net w).2.caches.cache .CACHE_NAME =
        es.foldl (fun acc d => Cache.put acc d.1 d.2) (w.caches.cache .CACHE_NAME) := by
      rw [downloadOffline_run, cacheAddAll_caches_ok hf hn]
      exact cache_update_open _ _ _
    have hstored : ∀ k ∈ missingResources cfg (Cache.keys (w.caches.cache .CACHE_NAME)),
        ∀ response, net (resolveUrl cfg.origin k) = .ok response →
          (newRequest cfg.origin k, response) ∈
            (downloadOffline cfg net w).2.caches.entries .CACHE_NAME := by
      intro k hk response hnet
      unfold CacheStorage.entries
      rw [hcaches]
      apply mem_foldl_put
      · have : es.map (fun d => d.1.target) = (es.map Prod.fst).map Request.target := by
          rw [List.map_map]
          rfl
        rw [this, hes]
        exact hn
      · exact fetchAll_mem hf (List.mem_map.2 ⟨k, hk, rfl⟩) hnet
    have hold : ∀ e ∈ w.caches.entries .CACHE_NAME,
        cacheKey cfg.origin e.1.url ∈ objectKeys cfg.RESOURCES →
          e ∈ (downloadOffline cfg net w).2.caches.entries .CACHE_NAME := by
      intro e he hkey
      unfold CacheStorage.entries
      rw [hcaches]
      exact hkept es hes e he hkey
    refine ⟨hstored, hold, ?_⟩
    intro k hk
    by_cases hmiss : k ∈ missingResources cfg (Cache.keys (w.caches.cache .CACHE_NAME))
    · obtain ⟨response, hnet, _⟩ := hiff.1 hok k hmiss
      refine ⟨newRequest cfg.origin k,
        List.mem_map.2 ⟨_, hstored k hmiss response hnet, rfl⟩, ?_⟩
      exact cacheKey_resolveUrl cfg.origin (hwf.2.1 k hk)
    · have : ∃ r0 ∈ Cache.keys (w.caches.cache .CACHE_NAME),
          cacheKey cfg.origin r0.url = k := by
        by_contra hno
        exact hmiss ((mem_missingResources hplain).2 ⟨hk, fun r hr hkr => hno ⟨r, hr, hkr⟩⟩)
      obtain ⟨r0, hr0, hk0⟩ := this
      obtain ⟨e, he, rfl⟩ := List.mem_map.1 hr0
      exact ⟨e.1, List.mem_map.2 ⟨e, hold e he (by rw [hk0]; exact hk), rfl⟩, hk0⟩
  · intro hfail
    rw [downloadOffline_run] at hfail ⊢
    exact cacheAddAll_caches_fail hfail

/-! ## The manifest store belongs to the worker -/

theorem onlineFirst_manifest (net : Network) (request : Request) (w : World) :
    (onlineFirst net request w).2.caches.manifest = w.caches.manifest := by
  cases h : net request.url with
  | ok response =>
    rw [onlineFirst_run_ok net request w response h]
    simp only
    rw [update_manifest _ _ _ (by decide), openCache_manifest _ _ (by decide)]
  | error e =>
    rw [onlineFirst_run_error net request w e h]
    exact openCache_manifest _ _ (by decide)

theorem cacheFirst_manifest (net : Network) (request : Request) (w : World) :
    (cacheFirst net request w).2.caches.manifest = w.caches.manifest := by
  have hopen := openCache_manifest w.caches .CACHE_NAME (by decide)
  unfold cacheFirst
  cases hm : Cache.matchReq (w.caches.cache .CACHE_NAME) request with
  | some response =>
    simp only [bind_run, cachesOpen, cacheMatch, cache_open, hm, pure_run]
    exact hopen
  | none =>
    cases hn : net request.url with
    | error e =>
      simp only [bind_run, cachesOpen, cacheMatch, cache_open, hm, fetch, hn]
      exact hopen
    | ok response =>
      by_cases hok : response.ok = true
      · simp only [bind_run, cachesOpen, cacheMatch, cache_open, hm, fetch, hn, hok,
          if_true, cachePut, pure_run]
        rw [update_manifest _ _ _ (by decide)]
        exact hopen
      · simp only [bind_run, cachesOpen, cacheMatch, cache_open, hm, fetch, hn, hok,
          pure_run]
        exact hopen

theorem onFetch_manifest (cfg : Config) (net : Network) (request : Request) (w : World) :
    (onFetch cfg net request w).2.caches.manifest = w.caches.manifest := by
  unfold onFetch
  cases route cfg request with
  | none => rfl
  | some strategy =>
    cases strategy with
    | onlineFirst => exact onlineFirst_manifest net request w
    | cacheFirst => exact cacheFirst_manifest net request w

theorem onMessage_manifest (cfg : Config) (net : Network) (data : Str) (w : World) :
    (onMessage cfg net data w).2.caches.manifest = w.caches.manifest := by
  unfold onMessage
  by_cases h1 : data = "skipWaiting".toList
  · rw [if_pos h1]
    rfl
  · rw [if_neg h1]
    by_cases h2 : data = "downloadOffline".toList
    · rw [if_pos h2, downloadOffline_run, cacheAddAll_manifest _ _ _ _ (by decide)]
      exact openCache_manifest _ _ (by decide)
    · rw [if_neg h2]
      rfl

theorem owned_of_manifest_eq {origin : Str} {s t : CacheStorage}
    (h : t.manifest = s.manifest) (hs : ManifestStoreOwned origin s) :
    ManifestStoreOwned origin t := by
  unfold ManifestStoreOwned CacheStorage.entries CacheStorage.cache CacheStorage.get at hs ⊢
  rw [h]
  exact hs

theorem owned_of_manifest_none {origin : Str} {s : CacheStorage} (h : s.manifest = none) :
    ManifestStoreOwned origin s := by
  intro e he
  simp [CacheStorage.entries, CacheStorage.cache, CacheStorage.get, h, Cache.empty] at he

theorem keeps_of_manifest_eq {α : Type} {origin : Str} {a : Act α}
    (h : ∀ w, (a w).2.caches.manifest = w.caches.manifest) :
    Keeps (ManifestStoreOwned origin) a :=
  fun w hw => owned_of_manifest_eq (h w) hw

theorem keeps_pure {α : Type} (P : CacheStorage → Prop) (x : α) : Keeps P (pure x : Act α) :=
  fun _ hw => hw

theorem keeps_bind {α β : Type} {P : CacheStorage → Prop} {a : Act α} {f : α → Act β}
    (ha : Keeps P a) (hf : ∀ x, Keeps P (f x)) : Keeps P (a >>= f) := by
  intro w hw
  rw [bind_run]
  have h1 := ha w hw
  rcases hr : a w with ⟨r, w1⟩
  rw [hr] at h1
  cases r with
  | ok x => exact hf x w1 h1
  | error e => exact h1

theorem keeps_tryCatch {α : Type} {P : CacheStorage → Prop} {a : Act α} {f : Err → Act α}
    (ha : Keeps P a) (hf : ∀ e, Keeps P (f e)) : Keeps P (tryCatch a f) := by
  intro w hw
  unfold tryCatch
  have h1 := ha w hw
  rcases hr : a w with ⟨r, w1⟩
  rw [hr] at h1
  cases r with
  | ok x => exact h1
  | error e => exact hf e w1 h1

theorem keeps_await {α : Type} {P : CacheStorage → Prop} {a : Act α}
    (ha : Keeps P a) : Keeps P (await a) := by
  intro w hw
  unfold await
  rcases hf : w.fuse with _ | ⟨n, rest⟩
  · exact ha w hw
  · cases n with
    | zero => exact hw
    | succ n => exact ha { w with fuse := n :: rest } hw

theorem keeps_cachesOpen (origin : Str) (name : CacheName) :
    Keeps (ManifestStoreOwned origin) (cachesOpen name) := by
  intro w hw
  show ManifestStoreOwned origin (w.caches.openCache name)
  intro e he
  apply hw e
  have : (w.caches.openCache name).entries .MANIFEST = w.caches.entries .MANIFEST := by
    unfold CacheStorage.entries
    cases name with
    | MANIFEST => rw [cache_open]
    | TEMP =>
      unfold CacheStorage.cache CacheStorage.get
      rw [openCache_manifest _ _ (by decide)]
    | CACHE_NAME =>
      unfold CacheStorage.cache CacheStorage.get
      rw [openCache_manifest _ _ (by decide)]
  rw [← this]
  exact he

theorem keeps_cachesDelete (origin : Str) (name : CacheName) :
    Keeps (ManifestStoreOwned origin) (cachesDelete name) := by
  intro w hw
  show ManifestStoreOwned origin (w.caches.deleteCache name)
  cases name with
  | MANIFEST => exact owned_of_manifest_none rfl
  | TEMP => exact owned_of_manifest_eq rfl hw
  | CACHE_NAME => exact owned_of_manifest_eq rfl hw

theorem keeps_cachePut_other (origin : Str) (name : CacheName) (hn : name ≠ .MANIFEST)
    (request : Request) (response : Option Response) :
    Keeps (ManifestStoreOwned origin) (cachePut name request response) := by
  apply keeps_of_manifest_eq
  intro w
  cases response with
  | none => rfl
  | some r => exact update_manifest _ _ _ hn

theorem keeps_cachePut_manifest (origin : Str) (response : Option Response) :
    Keeps (ManifestStoreOwned origin)
      (cachePut .MANIFEST (manifestRequest origin) response) := by
  intro w hw
  cases response with
  | none => exact hw
  | some r =>
    show ManifestStoreOwned origin
      (w.caches.update .MANIFEST (fun c => Cache.put c (manifestRequest origin) r))
    cases hm : w.caches.manifest with
    | none =>
      apply owned_of_manifest_none
      simp [CacheStorage.update, CacheStorage.get, hm]
    | some M =>
      intro e he
      have he1 : e ∈ (Cache.put M (manifestRequest origin) r).entries := by
        simpa [CacheStorage.entries, CacheStorage.cache, CacheStorage.update,
          CacheStorage.get, CacheStorage.set, hm] using he
      rw [put_entries] at he1
      rcases mem_put.1 he1 with ⟨h1, _⟩ | h1
      · apply hw e
        simpa [CacheStorage.entries, CacheStorage.cache, CacheStorage.get, hm] using h1
      · rw [h1]

theorem keeps_cacheDelete_other (origin : Str) (name : CacheName) (hn : name ≠ .MANIFEST)
    (request : Request) :
    Keeps (ManifestStoreOwned origin) (cacheDelete name request) :=
  keeps_of_manifest_eq fun _ => update_manifest _ _ _ hn

theorem keeps_cacheMatch (origin : Str) (name : CacheName) (request : Request) :
    Keeps (ManifestStoreOwned origin) (cacheMatch name request) :=
  keeps_of_manifest_eq fun _ => rfl

theorem keeps_cacheKeys (origin : Str) (name : CacheName) :
    Keeps (ManifestStoreOwned origin) (cacheKeys name) :=
  keeps_of_manifest_eq fun _ => rfl

theorem keeps_responseJson (origin : Str) (response : Response) :
    Keeps (ManifestStoreOwned origin) (responseJson response) := by
  apply keeps_of_manifest_eq
  intro w
  unfold responseJson
  cases response.body <;> rfl

theorem keeps_populate (origin : Str) (ks : List Request) :
    Keeps (ManifestStoreOwned origin) (populate ks) := by
  induction ks with
  | nil => exact keeps_pure _ ()
  | cons k rest ih =>
    unfold populate
    exact keeps_bind (keeps_await (keeps_cacheMatch _ _ _)) fun response =>
      keeps_bind (keeps_await (keeps_cachePut_other _ _ (by decide) _ _)) fun _ => ih

theorem keeps_invalidate (cfg : Config) (oldManifest : Manifest) (ks : List Request) :
    Keeps (ManifestStoreOwned cfg.origin) (invalidate cfg oldManifest ks) := by
  induction ks with
  | nil => exact keeps_pure _ ()
  | cons k rest ih =>
    unfold invalidate
    by_cases hs : stale cfg oldManifest (cacheKey cfg.origin k.url) = true
    · simp only [hs, if_true]
      exact keeps_bind (keeps_await (keeps_cacheDelete_other _ _ (by decide) _)) fun _ => ih
    · simp only [hs, if_false]
      exact keeps_bind (keeps_pure _ _) fun _ => ih

theorem keeps_promote (cfg : Config) : Keeps (ManifestStoreOwned cfg.origin) (promote cfg) := by
  unfold promote
  exact keeps_bind (keeps_await (keeps_cacheKeys _ _)) fun staged =>
    keeps_bind (keeps_populate _ staged) fun _ =>
    keeps_bind (keeps_await (keeps_cachesDelete _ _)) fun _ =>
    keeps_bind (keeps_await (keeps_cachePut_manifest _ _)) fun _ =>
    keeps_of_manifest_eq fun _ => rfl

theorem keeps_activateBody (cfg : Config) :
    Keeps (ManifestStoreOwned cfg.origin) (activateBody cfg) := by
  unfold activateBody
  refine keeps_bind (keeps_await (keeps_cachesOpen _ _)) fun _ =>
    keeps_bind (keeps_await (keeps_cachesOpen _ _)) fun _ =>
    keeps_bind (keeps_await (keeps_cachesOpen _ _)) fun _ =>
    keeps_bind (keeps_await (keeps_cacheMatch _ _ _)) fun manifest => ?_
  cases manifest with
  | none =>
    exact keeps_bind (keeps_await (keeps_cachesDelete _ _)) fun _ =>
      keeps_bind (keeps_await (keeps_cachesOpen _ _)) fun _ => keeps_promote cfg
  | some manifest =>
    exact keeps_bind (keeps_await (keeps_responseJson _ _)) fun oldManifest =>
      keeps_bind (keeps_await (keeps_cacheKeys _ _)) fun cached =>
      keeps_bind (keeps_invalidate cfg oldManifest cached) fun _ => keeps_promote cfg

theorem keeps_activateCatch (origin : Str) (err : Err) :
    Keeps (ManifestStoreOwned origin) (activateCatch err) := by
  unfold activateCatch
  exact keeps_bind (keeps_of_manifest_eq fun _ => rfl) fun _ =>
    keeps_bind (keeps_await (keeps_cachesDelete _ _)) fun _ =>
    keeps_bind (keeps_await (keeps_cachesDelete _ _)) fun _ =>
    keeps_await (keeps_cachesDelete _ _)

/-- Activation keeps the manifest store the worker's own, whether it completes, is
caught by the catch block, or is rejected out of the catch block. -/
theorem activate_owned (cfg : Config) (w : World)
    (h : ManifestStoreOwned cfg.origin w.caches) :
    ManifestStoreOwned cfg.origin (activate cfg w).2.caches :=
  keeps_tryCatch (keeps_activateBody cfg) (keeps_activateCatch cfg.origin) w h

/-- In every state the worker brings about, the manifest store holds no entry under
a key other than 'manifest'. -/
theorem reachable_manifestStoreOwned {origin : Str} {w : World} (h : Reachable origin w) :
    ManifestStoreOwned origin w.caches := by
  induction h with
  | fresh w hw =>
    rw [hw]
    exact owned_of_manifest_none rfl
  | install cfg net w _ _ ih => exact owned_of_manifest_eq (install_manifest cfg net w) ih
  | activate cfg w ho _ ih =>
    subst ho
    exact activate_owned cfg w ih
  | fetch cfg net request w _ _ ih =>
    exact owned_of_manifest_eq (onFetch_manifest cfg net request w) ih
  | message cfg net data w _ _ ih =>
    exact owned_of_manifest_eq (onMessage_manifest cfg net data w) ih
  | arm w fuse _ ih => exact ih

/-- The constants of this build satisfy the data-model conditions, on every origin. -/
theorem thisBuild_wf (origin : Str) : (thisBuild origin).WF := by
  have h : (thisBuild []).WF := by decide
  exact h

/-- No key of this build has a fragment sign or is the name of an inherited member. -/
theorem thisBuild_plainKeys (origin : Str) (h : '#' ∉ origin) : (thisBuild origin).PlainKeys := by
  have h1 : (thisBuild []).PlainKeys := by decide
  exact ⟨h, h1.2⟩

/-! ## The statements at concrete inputs -/

/-- In the upgrade scenario the entry of c, whose checksum is unchanged, is still in
the content partition after activation. -/
theorem upgrade_keeps_unchanged_witness :
    ({ url := "https://x/c".toList }, textResponse "c1") ∈
      (activate upgradeBuild upgradeWorld).2.caches.entries .CACHE_NAME :=
  (upgrade_keeps_unchanged upgradeBuild upgradeWorld
    (newResponse (JSON_stringify savedManifest)) savedManifest
    { url := "https://x/c".toList } (textResponse "c1") "h3".toList
    (by rfl) rfl (by decide) (by decide) (by decide) (by decide) (by rfl)).2.2 (by decide)

/-- In the upgrade scenario with the fifth awaited step failing and the deletions
of the catch block succeeding, activation is fulfilled and leaves none of the three
partitions. -/
theorem activation_failure_resets_witness :
    (activateBody upgradeBuild faultyWorld).1 = .error .storage ∧
    (activate upgradeBuild faultyWorld).1 = .ok () ∧
    (activate upgradeBuild faultyWorld).2.caches.content = none ∧
    (activate upgradeBuild faultyWorld).2.caches.temp = none ∧
    (activate upgradeBuild faultyWorld).2.caches.manifest = none :=
  have h := (activation_failure_resets upgradeBuild faultyWorld .storage (by rfl)).1
    True.intro
  ⟨by rfl, h.1, h.2.1, h.2.2.1, h.2.2.2.1⟩

/-- In the upgrade scenario a second activation leaves the state as the first one
left it. -/
theorem activation_idempotent_witness :
    (activate upgradeBuild (disarm (activate upgradeBuild upgradeWorld).2)).2 =
      disarm (activate upgradeBuild upgradeWorld).2 :=
  (activation_idempotent upgradeBuild upgradeWorld (by decide)
    (by unfold StagedCore; decide) (by rfl)).2.2.2.2

/-- In the upgrade scenario activation leaves the new manifest as the only entry of
the manifest store, and no staging partition. -/
theorem activation_saves_manifest_witness :
    (activate upgradeBuild upgradeWorld).2.caches.manifest =
      some (Cache.single (manifestRequest upgradeBuild.origin)
        (newResponse (JSON_stringify upgradeBuild.RESOURCES))) ∧
    (activate upgradeBuild upgradeWorld).2.caches.temp = none :=
  activation_saves_manifest upgradeBuild upgradeWorld
    (by unfold ManifestStoreOwned; decide) (by rfl)

/-- The scenario of the first install on the origin https://x, the network serving
the live copy. -/
theorem first_install_content_witness :
    (activate (scenarioBuild "https://x".toList)
        (install (scenarioBuild "https://x".toList) liveNet freshWorld).2).2.caches =
      { content := some (Cache.single { url := "https://x".toList ++ "/a".toList } liveApp),
        manifest := some (Cache.single (manifestRequest "https://x".toList)
          (newResponse (JSON_stringify (scenarioBuild "https://x".toList).RESOURCES))),
        temp := none } :=
  (first_install_content.2 "https://x".toList liveNet liveApp rfl rfl).2.2

/-- The requests for https://x/app?v=3 and https://x/app have the same logical key. -/
theorem version_suffix_same_route_witness :
    fetchKey versionedBuild.origin
        (versionedBuild.origin ++ '/' :: ("app".toList ++ ("?v=".toList ++ "3".toList))) =
      fetchKey versionedBuild.origin (versionedBuild.origin ++ '/' :: "app".toList) :=
  (version_suffix_same_route versionedBuild "app".toList "3".toList "GET".toList
    (by decide)).1

/-- With this build, the network down and the root document cached under
https://x/, a request for the fragment route https://x/#/news is answered with the
cached root document: the cache compares URLs without their fragments. -/
theorem online_first_root_witness :
    (onFetch (thisBuild "https://x".toList) offlineNet
        { url := "https://x/#/news".toList } rootCachedWorld).1
      = some (.ok (textResponse "root")) :=
  (online_first_root (thisBuild "https://x".toList) offlineNet
    { url := "https://x/#/news".toList } rootCachedWorld
    (by decide) rfl (by decide) (by decide)).2.1 (.network 7) (textResponse "root") rfl (by rfl)

/-- With this build, main.dart.js cached and the network serving every URL, the
bulk download succeeds, stores index.html with the live response, leaves the cached
main.dart.js as it was and does not request it. -/
theorem download_offline_missing_witness :
    (downloadOffline (thisBuild "https://x".toList) liveNet partialWorld).1 = .ok () ∧
    (newRequest "https://x".toList "index.html".toList, liveApp) ∈
      (downloadOffline (thisBuild "https://x".toList) liveNet
        partialWorld).2.caches.entries .CACHE_NAME ∧
    ({ url := "https://x/main.dart.js".toList }, cachedApp) ∈
      (downloadOffline (thisBuild "https://x".toList) liveNet
        partialWorld).2.caches.entries .CACHE_NAME ∧
    "main.dart.js".toList ∉ missingResources (thisBuild "https://x".toList)
      (Cache.keys (partialWorld.caches.cache .CACHE_NAME)) :=
  have h := download_offline_missing (thisBuild "https://x".toList) liveNet partialWorld
    (by decide) (by decide)
  have hok := h.2.2.2.1.2 (fun _ _ => ⟨liveApp, rfl, rfl⟩)
  ⟨hok,
   (h.2.2.2.2.1 hok).1 "index.html".toList ((h.2.2.1 _).2 ⟨by decide, by decide⟩) liveApp rfl,
   (h.2.2.2.2.1 hok).2.1 _ (by decide) (by decide),
   fun hm => ((h.2.2.1 _).1 hm).2 { url := "https://x/main.dart.js".toList } (by decide)
     (by decide)⟩

end FlutterServiceWorker
